import Mathlib

/-! # muduo base: blocking queues and thread pool

A shallow embedding of `muduo/base/BlockingQueue.h`,
`muduo/base/BoundedBlockingQueue.h`, `muduo/base/ThreadPool.{h,cc}` and the
parts of `muduo/base/Thread.cc` the pool uses.

Modelling conventions.

* Every member function that runs under `MutexLockGuard` is one atomic step
  on the guarded state.  A function with a `while (cond) wait()` loop is
  modelled by one pass through that loop: when `cond` holds the step is
  `Outcome.waiting` (the thread sleeps on the condition variable, having
  changed nothing); otherwise the rest of the body runs and the step is
  `Outcome.returned`.  An interleaving of threads is a list of such steps.
* Condition-variable signals, task invocations, thread starts and joins do not
  change the guarded state; they are recorded as the events of a step.
* `assert` is modelled as a check: a failing assertion is `Outcome.faulted`.
  An exception that leaves the function is `Outcome.faulted` too.
* `std::deque<T>` is `List T` (front = head).  `std::function<void ()>` is
  `Option τ`: `none` is the empty function object, `some t` a callable.
-/

namespace muduo

/-- Why a call did not return normally. -/
inductive Fault where
  /-- an `assert(...)` failed -/
  | assertion
  /-- a C++ exception left the function (`std::length_error`,
  `std::bad_function_call`) -/
  | exception
  deriving DecidableEq, Repr

/-- The two condition variables used by the queues and the pool. -/
inductive Cond where
  | notEmpty
  | notFull
  deriving DecidableEq, Repr

/-- A call on a `Condition`. -/
inductive Signal where
  /-- call of `Condition::notify()` -/
  | notify (c : Cond)
  /-- call of `Condition::notifyAll()` -/
  | notifyAll (c : Cond)
  deriving DecidableEq, Repr

/-- Result of one atomic step of a member function on guarded state `σ`,
with return value `ρ` and visible events `ε`. -/
inductive Outcome (σ ρ ε : Type) where
  /-- the wait-loop condition held: the thread waits, state as it was left -/
  | waiting (s : σ)
  /-- the function ran to its end -/
  | returned (s : σ) (r : ρ) (evs : List ε)
  /-- the function was left by a failed assertion or an exception -/
  | faulted (s : σ) (evs : List ε) (f : Fault)
  deriving DecidableEq, Repr

namespace Outcome

variable {σ ρ ε : Type}

/-- State of the object after the step. -/
def state : Outcome σ ρ ε → σ
  | waiting s => s
  | returned s _ _ => s
  | faulted s _ _ => s

/-- Events the step produced. -/
def events : Outcome σ ρ ε → List ε
  | waiting _ => []
  | returned _ _ evs => evs
  | faulted _ evs _ => evs

/-- Value returned, when the step returned. -/
def value? : Outcome σ ρ ε → Option ρ
  | returned _ r _ => some r
  | _ => none

/-- The step is a wait on a condition variable. -/
def isWaiting : Outcome σ ρ ε → Bool
  | waiting _ => true
  | _ => false

/-- The step returned normally. -/
def isReturned : Outcome σ ρ ε → Bool
  | returned _ _ _ => true
  | _ => false

/-- Events of a sequence of steps, in order. -/
def allEvents (os : List (Outcome σ ρ ε)) : List ε :=
  os.foldr (fun o acc => o.events ++ acc) []

end Outcome

/-! ## BlockingQueue.h -/

/-- Class `muduo::BlockingQueue<T>`: the guarded member `queue_`. -/
structure BlockingQueue (T : Type) where
  queue_ : List T
  deriving DecidableEq, Repr

namespace BlockingQueue

variable {T : Type}

/-- Constructor `BlockingQueue()`: `queue_()` is the empty deque. -/
def new : BlockingQueue T := ⟨[]⟩

/-- Member `void put(const T& x)` / `void put(T&& x)`:
`queue_.push_back(x); notEmpty_.notify();`. -/
def put (q : BlockingQueue T) (x : T) : Outcome (BlockingQueue T) Unit Signal :=
  .returned ⟨q.queue_ ++ [x]⟩ () [.notify .notEmpty]

/-- Member `T take()`: `while (queue_.empty()) notEmpty_.wait();` then
`front = queue_.front(); queue_.pop_front(); return front;`.
(The `assert(!queue_.empty())` after the loop holds by the loop's exit test.) -/
def take (q : BlockingQueue T) : Outcome (BlockingQueue T) T Signal :=
  match q.queue_ with
  | [] => .waiting q
  | front :: rest => .returned ⟨rest⟩ front []

/-- Member `size_t size() const`. -/
def size (q : BlockingQueue T) : Nat := q.queue_.length

/-- Calls `put(x)` for each `x` of `xs` in order, on one thread. -/
def putAll (q : BlockingQueue T) : List T → BlockingQueue T
  | [] => q
  | x :: xs => putAll (q.put x).state xs

/-- Calls `take()` `n` times on one thread with no other thread running:
`none` when one of the calls waits (it would then wait for ever), otherwise
the values returned, in call order, and the final queue. -/
def takeN : Nat → BlockingQueue T → Option (List T × BlockingQueue T)
  | 0, q => some ([], q)
  | n + 1, q =>
    match q.take with
    | .returned q1 x _ =>
      match takeN n q1 with
      | some (xs, q2) => some (x :: xs, q2)
      | none => none
    | _ => none

end BlockingQueue

/-! ## boost::circular_buffer (library type used by BoundedBlockingQueue) -/

/-- Library type `boost::circular_buffer<T>` as the library documents it: a fixed capacity
and the stored elements, oldest first. -/
structure CircularBuffer (T : Type) where
  capacity : Nat
  elems : List T
  deriving DecidableEq, Repr

namespace CircularBuffer

variable {T : Type}

/-- Constructor `explicit circular_buffer(capacity_type buffer_capacity)`: an empty
buffer of that capacity. -/
def new (buffer_capacity : Nat) : CircularBuffer T := ⟨buffer_capacity, []⟩

/-- Member `size()`. -/
def size (b : CircularBuffer T) : Nat := b.elems.length

/-- Member `empty()`: `size() == 0`. -/
def empty (b : CircularBuffer T) : Bool := b.size == 0

/-- Member `full()`: `capacity() == size()`. -/
def full (b : CircularBuffer T) : Bool := b.capacity == b.size

/-- Member `push_back(x)`: appends; on a full buffer the oldest element is
overwritten, and on a buffer of capacity 0 nothing is stored. -/
def push_back (b : CircularBuffer T) (x : T) : CircularBuffer T :=
  if b.full then
    if b.capacity = 0 then b else ⟨b.capacity, b.elems.drop 1 ++ [x]⟩
  else ⟨b.capacity, b.elems ++ [x]⟩

/-- Member `front()`, defined on a non-empty buffer. -/
def front? (b : CircularBuffer T) : Option T := b.elems.head?

/-- Member `pop_front()`: removes the oldest element. -/
def pop_front (b : CircularBuffer T) : CircularBuffer T := ⟨b.capacity, b.elems.drop 1⟩

end CircularBuffer

/-! ## BoundedBlockingQueue.h -/

/-- Class `muduo::BoundedBlockingQueue<T>`: the guarded member `queue_`. -/
structure BoundedBlockingQueue (T : Type) where
  queue_ : CircularBuffer T
  deriving DecidableEq, Repr

namespace BoundedBlockingQueue

variable {T : Type}

/-- Constructor `explicit BoundedBlockingQueue(int maxSize)`: `queue_(maxSize)`.
The `int` is converted to the buffer's unsigned `capacity_type`; a negative
`maxSize` becomes a value above what the allocator can provide and the
buffer's constructor throws. There is no other check on `maxSize`. -/
def new (maxSize : Int) : Except Fault (BoundedBlockingQueue T) :=
  if maxSize < 0 then .error .exception
  else .ok ⟨CircularBuffer.new maxSize.toNat⟩

/-- Member `void put(const T& x)`: `while (queue_.full()) notFull_.wait();` then
`queue_.push_back(x); notEmpty_.notify();`.
(The `assert(!queue_.full())` after the loop holds by the loop's exit test.) -/
def put (q : BoundedBlockingQueue T) (x : T) : Outcome (BoundedBlockingQueue T) Unit Signal :=
  if q.queue_.full then .waiting q
  else .returned ⟨q.queue_.push_back x⟩ () [.notify .notEmpty]

/-- Member `T take()`: `while (queue_.empty()) notEmpty_.wait();` then
`front = queue_.front(); queue_.pop_front(); notFull_.notify(); return front;`.
The `none` branch is `front()` on an empty buffer, which the
`assert(!queue_.empty())` after the loop excludes. -/
def take (q : BoundedBlockingQueue T) : Outcome (BoundedBlockingQueue T) T Signal :=
  if q.queue_.empty then .waiting q
  else
    match q.queue_.front? with
    | some front => .returned ⟨q.queue_.pop_front⟩ front [.notify .notFull]
    | none => .faulted q [] .assertion

/-- Member `bool empty() const`. -/
def empty (q : BoundedBlockingQueue T) : Bool := q.queue_.empty

/-- Member `bool full() const`. -/
def full (q : BoundedBlockingQueue T) : Bool := q.queue_.full

/-- Member `size_t size() const`. -/
def size (q : BoundedBlockingQueue T) : Nat := q.queue_.size

/-- Member `size_t capacity() const`. -/
def capacity (q : BoundedBlockingQueue T) : Nat := q.queue_.capacity

/-- A call made on the queue by some thread. -/
inductive Op (T : Type) where
  | put (x : T)
  | take
  deriving DecidableEq, Repr

/-- One step of an interleaving: the state the call leaves behind, whether it
returned or went to wait. -/
def step (q : BoundedBlockingQueue T) : Op T → BoundedBlockingQueue T
  | .put x => (q.put x).state
  | .take => q.take.state

/-- An interleaving of `put` and `take` steps, executed from `q`. -/
def steps (q : BoundedBlockingQueue T) (ops : List (Op T)) : BoundedBlockingQueue T :=
  ops.foldl step q

/-- Calls `put(x)` for each `x` of `xs` in order on one thread with no other
thread running: `none` when one of the calls waits. -/
def putAll (q : BoundedBlockingQueue T) : List T → Option (BoundedBlockingQueue T)
  | [] => some q
  | x :: xs =>
    match q.put x with
    | .returned q1 _ _ => putAll q1 xs
    | _ => none

/-- Calls `take()` `n` times on one thread with no other thread running:
`none` when one of the calls waits, otherwise the values returned, in call
order, and the final queue. -/
def takeN : Nat → BoundedBlockingQueue T → Option (List T × BoundedBlockingQueue T)
  | 0, q => some ([], q)
  | n + 1, q =>
    match q.take with
    | .returned q1 x _ =>
      match takeN n q1 with
      | some (xs, q2) => some (x :: xs, q2)
      | none => none
    | _ => none

end BoundedBlockingQueue

/-! ## Thread.cc (the members ThreadPool uses) -/

/-- Class `muduo::Thread`: the members the pool's code reads or writes. -/
structure Thread where
  started_ : Bool
  joined_ : Bool
  name_ : String
  deriving DecidableEq, Repr

namespace Thread

/-- Member `void Thread::setDefaultName()`, with `num` the value returned by
`numCreated_.incrementAndGet()`: an empty name becomes `"Thread<num>"`. -/
def setDefaultName (t : Thread) (num : Nat) : Thread :=
  if t.name_.isEmpty then { t with name_ := "Thread" ++ toString num } else t

/-- Constructor `Thread::Thread(ThreadFunc func, const string& n)`:
`started_(false), joined_(false), name_(n)`, then `setDefaultName()`.
`numCreated` is the value of the static counter `numCreated_` before the call. -/
def new (n : String) (numCreated : Nat) : Thread :=
  setDefaultName { started_ := false, joined_ := false, name_ := n } (numCreated + 1)

/-- Member `void Thread::start()`: `assert(!started_); started_ = true;` then
the OS thread is created and the caller waits on the latch until it runs.
`none` is the failed assertion. (A failing `pthread_create` ends the process
through `LOG_SYSFATAL`; the model takes thread creation to succeed.) -/
def start (t : Thread) : Option Thread :=
  if t.started_ then none else some { t with started_ := true }

/-- Member `int Thread::join()`: `assert(started_); assert(!joined_);
joined_ = true; return pthread_join(pthreadId_, NULL);`.
`none` is a failed assertion. -/
def join (t : Thread) : Option Thread :=
  if !t.started_ then none
  else if t.joined_ then none
  else some { t with joined_ := true }

end Thread

/-! ## ThreadPool.h, ThreadPool.cc -/

/-- Type `ThreadPool::Task`, a `std::function<void ()>` over callables `τ`:
`none` is the empty function object. -/
abbrev Task (τ : Type) := Option τ

/-- What a pool member function does besides changing the pool's members. -/
inductive Event (τ : Type) where
  /-- a call on one of the pool's condition variables -/
  | signal (s : Signal)
  /-- the calling thread invokes the callable `t` (a task or the init callback) -/
  | invoke (t : τ)
  /-- the call `threads_[i]->start()`: worker `i`, of the given name, begins to
  run `runInThread` on its own OS thread -/
  | spawn (i : Nat) (name : String)
  /-- the call `threads_[i]->join()` -/
  | join (i : Nat)
  deriving DecidableEq, Repr

/-- The event is the call `threads_[i]->join()`. -/
def Event.isJoin {τ : Type} (i : Nat) : Event τ → Bool
  | .join j => j == i
  | _ => false

/-- Number of calls `threads_[i]->join()` among the events. -/
def joinCount {τ : Type} (evs : List (Event τ)) (i : Nat) : Nat :=
  (evs.filter (Event.isJoin i)).length

/-- Class `muduo::ThreadPool`: its data members (the mutex and the two
condition variables carry no data). -/
structure ThreadPool (τ : Type) where
  name_ : String
  threadInitCallback_ : Task τ
  threads_ : List Thread
  queue_ : List (Task τ)
  maxQueueSize_ : Nat
  running_ : Bool
  deriving DecidableEq, Repr

namespace ThreadPool

variable {τ : Type}

/-- Constructor `ThreadPool::ThreadPool(const string& nameArg)`:
`name_(nameArg), maxQueueSize_(0), running_(false)`; the callback, the thread
vector and the deque are default-constructed (empty). -/
def new (nameArg : String) : ThreadPool τ :=
  { name_ := nameArg, threadInitCallback_ := none, threads_ := [], queue_ := [],
    maxQueueSize_ := 0, running_ := false }

/-- Member `void setMaxQueueSize(int maxSize) { maxQueueSize_ = maxSize; }`:
the `int` is converted to `size_t` (64 bits). No check of the pool's state. -/
def setMaxQueueSize (p : ThreadPool τ) (maxSize : Int) : ThreadPool τ :=
  { p with maxQueueSize_ := (maxSize % 2 ^ 64).toNat }

/-- Member `void setThreadInitCallback(const Task& cb)
{ threadInitCallback_ = cb; }`. No check of the pool's state. -/
def setThreadInitCallback (p : ThreadPool τ) (cb : Task τ) : ThreadPool τ :=
  { p with threadInitCallback_ := cb }

/-- Member `const string& name() const`. -/
def name (p : ThreadPool τ) : String := p.name_

/-- Member `size_t ThreadPool::queueSize() const`. -/
def queueSize (p : ThreadPool τ) : Nat := p.queue_.length

/-- Member `bool ThreadPool::isFull() const`:
`maxQueueSize_ > 0 && queue_.size() >= maxQueueSize_`. -/
def isFull (p : ThreadPool τ) : Bool :=
  decide (p.maxQueueSize_ > 0) && decide (p.queue_.length ≥ p.maxQueueSize_)

/-- Worker `i` of `start`'s loop: `new muduo::Thread(bind(runInThread), name_+id)`
with `id` the decimal `"%d"` of `i+1`. `numCreated` is the value of
`Thread::numCreated_` when `start` is entered. -/
def newWorker (p : ThreadPool τ) (numCreated : Nat) (i : Nat) : Thread :=
  Thread.new (p.name_ ++ toString (i + 1)) (numCreated + i)

/-- The body of `start`'s `for` loop for `i = from, ..., from + count - 1`:
`threads_.emplace_back(new Thread(...)); threads_[i]->start();`.
When the loop is entered `threads_` is empty (asserted), so `threads_[i]` is
the element just appended. -/
def startLoop (p : ThreadPool τ) (numCreated : Nat) :
    (count i : Nat) → List Thread → List (Event τ) →
      Outcome (List Thread) Unit (Event τ)
  | 0, _, threads, evs => .returned threads () evs
  | count + 1, i, threads, evs =>
    match (p.newWorker numCreated i).start with
    | some thr => startLoop p numCreated count (i + 1) (threads ++ [thr])
        (evs ++ [.spawn i thr.name_])
    | none => .faulted (threads ++ [p.newWorker numCreated i]) evs .assertion

/-- Member `void ThreadPool::start(int numThreads)`:
`assert(threads_.empty()); running_ = true; threads_.reserve(numThreads);`
the loop creating and starting the workers, and
`if (numThreads == 0 && threadInitCallback_) threadInitCallback_();`.
A negative `numThreads` reaches `reserve` as a `size_t` above `max_size()`,
which throws `std::length_error`. -/
def start (p : ThreadPool τ) (numThreads : Int) (numCreated : Nat) :
    Outcome (ThreadPool τ) Unit (Event τ) :=
  if !p.threads_.isEmpty then .faulted p [] .assertion
  else
    let p1 := { p with running_ := true }
    if numThreads < 0 then .faulted p1 [] .exception
    else
      match startLoop p1 numCreated numThreads.toNat 0 p1.threads_ [] with
      | .returned threads _ evs =>
        let p2 := { p1 with threads_ := threads }
        match decide (numThreads = 0), p2.threadInitCallback_ with
        | true, some cb => .returned p2 () (evs ++ [.invoke cb])
        | _, _ => .returned p2 () evs
      | .faulted threads evs f => .faulted { p1 with threads_ := threads } evs f
      | .waiting threads => .waiting { p1 with threads_ := threads }

/-- The locked block of `stop`: `running_ = false; notEmpty_.notifyAll();`. -/
def stopLocked (p : ThreadPool τ) : ThreadPool τ × List (Event τ) :=
  ({ p with running_ := false }, [.signal (.notifyAll .notEmpty)])

/-- The loop `for (auto& thr : threads_) thr->join();` of `stop`, at position
`i`, with `done` the threads already joined. Each `join` returns when its
worker has left `runInThread`; the model records the call. -/
def joinLoop : (i : Nat) → (done : List Thread) → List (Event τ) → List Thread →
    Outcome (List Thread) Unit (Event τ)
  | _, done, evs, [] => .returned done () evs
  | i, done, evs, thr :: rest =>
    match thr.join with
    | some thr1 => joinLoop (i + 1) (done ++ [thr1]) (evs ++ [.join i]) rest
    | none => .faulted (done ++ thr :: rest) evs .assertion

/-- Member `void ThreadPool::stop()`: the locked block, then the join loop. -/
def stop (p : ThreadPool τ) : Outcome (ThreadPool τ) Unit (Event τ) :=
  let p1 := (stopLocked p).1
  match joinLoop 0 [] (stopLocked p).2 p1.threads_ with
  | .returned threads _ evs => .returned { p1 with threads_ := threads } () evs
  | .faulted threads evs f => .faulted { p1 with threads_ := threads } evs f
  | .waiting threads => .waiting { p1 with threads_ := threads }

/-- Destructor `ThreadPool::~ThreadPool()`: `if (running_) stop();`. -/
def destroy (p : ThreadPool τ) : Outcome (ThreadPool τ) Unit (Event τ) :=
  if p.running_ then p.stop else .returned p () []

/-- Member `void ThreadPool::run(Task task)`. With no threads the task is
called in the calling thread (calling an empty `std::function` throws
`std::bad_function_call`). Otherwise, under the lock,
`while (isFull()) notFull_.wait();` then
`queue_.push_back(std::move(task)); notEmpty_.notify();`. -/
def run (p : ThreadPool τ) (task : Task τ) : Outcome (ThreadPool τ) Unit (Event τ) :=
  if p.threads_.isEmpty then
    match task with
    | some t => .returned p () [.invoke t]
    | none => .faulted p [] .exception
  else if p.isFull then .waiting p
  else .returned { p with queue_ := p.queue_ ++ [task] } () [.signal (.notify .notEmpty)]

/-- Member `ThreadPool::Task ThreadPool::take()`: under the lock,
`while (queue_.empty() && running_) notEmpty_.wait();` then, with `task`
empty, `if (!queue_.empty()) { task = queue_.front(); queue_.pop_front();
if (maxQueueSize_ > 0) notFull_.notify(); }` and `return task;`. -/
def take (p : ThreadPool τ) : Outcome (ThreadPool τ) (Task τ) (Event τ) :=
  if p.queue_.isEmpty && p.running_ then .waiting p
  else
    match p.queue_ with
    | [] => .returned p none []
    | task :: rest =>
      .returned { p with queue_ := rest } task
        (if p.maxQueueSize_ > 0 then [.signal (.notify .notFull)] else [])

/-- A call made on the pool's queue by some thread: `run` by a producer,
`take` by a worker. -/
inductive Op (τ : Type) where
  | run (task : Task τ)
  | take
  deriving DecidableEq, Repr

/-- One step of an interleaving: the pool the call leaves behind, whether it
returned or went to wait. -/
def step (p : ThreadPool τ) : Op τ → ThreadPool τ
  | .run task => (p.run task).state
  | .take => p.take.state

/-- An interleaving of `run` and `take` steps, executed from `p`. -/
def steps (p : ThreadPool τ) (ops : List (Op τ)) : ThreadPool τ :=
  ops.foldl step p

/-- Calls `run(task)` for each task in order on one thread: the outcome of
each call, in order, and the final pool. -/
def runAll (p : ThreadPool τ) :
    List (Task τ) → List (Outcome (ThreadPool τ) Unit (Event τ)) × ThreadPool τ
  | [] => ([], p)
  | task :: tasks =>
    let o := p.run task
    let rest := runAll o.state tasks
    (o :: rest.1, rest.2)

/-- A pool as constructed and configured before `start`:
`ThreadPool pool(nameArg); pool.setMaxQueueSize(maxSize);
pool.setThreadInitCallback(cb);`. -/
def configured (nameArg : String) (maxSize : Int) (cb : Task τ) : ThreadPool τ :=
  ((new nameArg).setMaxQueueSize maxSize).setThreadInitCallback cb

end ThreadPool

/-! ## ThreadPool::runInThread, the worker loop -/

/-- Position of a worker thread in `ThreadPool::runInThread`. -/
inductive WorkerPc (τ : Type) where
  /-- the thread function is entered, before `if (threadInitCallback_)` -/
  | init
  /-- at the loop test `while (running_)` -/
  | loopTest
  /-- in the call `take()`: about to lock, or waiting on `notEmpty_` -/
  | inTake
  /-- the call `take()` has returned `task`; at `if (task) task();` -/
  | gotTask (task : Task τ)
  /-- the loop is left and `runInThread` has returned -/
  | exited
  deriving DecidableEq, Repr

/-- What a thread does in one step that is visible beyond the pool's members. -/
inductive WorkerEvent (τ : Type) where
  /-- a worker calls `threadInitCallback_()` -/
  | initCallback (cb : τ)
  /-- a worker's call `take()` returns `task` -/
  | took (task : Task τ)
  /-- a worker calls `task()` on the task it took -/
  | execute (t : τ)
  /-- an event of the pool member function the thread called -/
  | pool (e : Event τ)
  deriving DecidableEq, Repr

namespace WorkerEvent

variable {τ : Type}

/-- The event is a call of the init callback. -/
def isInitCallback : WorkerEvent τ → Bool
  | .initCallback _ => true
  | _ => false

/-- The event is the return of a `take()`. -/
def isTook : WorkerEvent τ → Bool
  | .took _ => true
  | _ => false

/-- The event is the begin of a task's execution: a worker's `task()`, or the
`task()` of `run` on a pool without threads. -/
def startsTask : WorkerEvent τ → Bool
  | .execute _ => true
  | .pool (.invoke _) => true
  | _ => false

end WorkerEvent

/-- Number of tasks whose execution begins among the events. -/
def startedTasks {τ : Type} (evs : List (WorkerEvent τ)) : Nat :=
  (evs.filter WorkerEvent.startsTask).length

/-- Number of calls of the init callback among the events. -/
def initCallbackCount {τ : Type} (evs : List (WorkerEvent τ)) : Nat :=
  (evs.filter WorkerEvent.isInitCallback).length

namespace WorkerPc

variable {τ : Type}

/-- Measure used in the drain bound: 1 when a worker at this position can
still begin a task without passing the loop test again. -/
def pendingRuns : WorkerPc τ → Nat
  | .inTake => 1
  | .gotTask (some _) => 1
  | _ => 0

/-- Measure used in the drain bound: 1 when a worker at this position can
still complete a `take()` without passing the loop test again. -/
def pendingTakes : WorkerPc τ → Nat
  | .inTake => 1
  | _ => 0

end WorkerPc

namespace ThreadPool

variable {τ : Type}

/-- Member `void ThreadPool::runInThread()`, one step of the worker from
position `pc`: `if (threadInitCallback_) threadInitCallback_();` then
`while (running_) { Task task(take()); if (task) task(); }`.
The result is the next position, the pool, and the events of the step. A
`take()` that has to wait leaves the worker in `take`. (The `catch` blocks end
the process when a callback or task throws; the model takes them to return.) -/
def runInThread (p : ThreadPool τ) :
    WorkerPc τ → WorkerPc τ × ThreadPool τ × List (WorkerEvent τ)
  | .init =>
    (.loopTest, p,
      match p.threadInitCallback_ with
      | some cb => [.initCallback cb]
      | none => [])
  | .loopTest => (if p.running_ then .inTake else .exited, p, [])
  | .inTake =>
    match p.take with
    | .waiting p1 => (.inTake, p1, [])
    | .returned p1 task evs => (.gotTask task, p1, evs.map .pool ++ [.took task])
    | .faulted p1 evs _ => (.exited, p1, evs.map .pool)
  | .gotTask task =>
    (.loopTest, p,
      match task with
      | some t => [.execute t]
      | none => [])
  | .exited => (.exited, p, [])

/-- Successive steps of one worker from position `pc`. The list gives the
pool the worker finds at each of its steps: between two steps of the worker
the other threads may have changed the pool in any way. The result is the
worker's final position and its events in order. -/
def workerTrace : List (ThreadPool τ) → WorkerPc τ → WorkerPc τ × List (WorkerEvent τ)
  | [], pc => (pc, [])
  | p :: ps, pc =>
    let r := p.runInThread pc
    let rest := workerTrace ps r.1
    (rest.1, r.2.2 ++ rest.2)

/-- Tasks accepted by the `run` calls of an interleaving, in order: a `run`
that returns has pushed its task. -/
def accepted (p : ThreadPool τ) : List (Op τ) → List (Task τ)
  | [] => []
  | op :: ops =>
    (match op with
      | .run task =>
        match p.run task with
        | .returned _ _ _ => [task]
        | _ => []
      | .take => [])
    ++ accepted (p.step op) ops

/-- Tasks handed out by the `take` calls of an interleaving, in order: a
`take` that returns on a non-empty queue returns the task it removed (on an
empty queue it returns the empty function object and removes nothing). -/
def handedOut (p : ThreadPool τ) : List (Op τ) → List (Task τ)
  | [] => []
  | op :: ops =>
    (match op with
      | .run _ => []
      | .take =>
        match p.take with
        | .returned _ task _ => if p.queue_.isEmpty then [] else [task]
        | _ => [])
    ++ handedOut (p.step op) ops

end ThreadPool

/-- A pool together with the positions of its worker threads: `workers[i]` is
where the thread of `threads_[i]` is in `runInThread`. -/
structure PoolSystem (τ : Type) where
  pool : ThreadPool τ
  workers : List (WorkerPc τ)
  deriving DecidableEq, Repr

/-- One scheduling step of the threads that use a pool. -/
inductive Action (τ : Type) where
  /-- worker `i` performs its next step of `runInThread` -/
  | worker (i : Nat)
  /-- a producer's call `run(task)` passes through its wait loop once -/
  | run (task : Task τ)
  /-- the locked block of `stop()` is executed -/
  | stopLocked
  deriving DecidableEq, Repr

namespace PoolSystem

variable {τ : Type}

/-- The system right after `start`: every spawned worker is at the entry of
`runInThread`. -/
def started (p : ThreadPool τ) : PoolSystem τ :=
  { pool := p, workers := p.threads_.map (fun _ => WorkerPc.init) }

/-- Effect of one scheduling step: the new system and the events of the step. -/
def act (s : PoolSystem τ) : Action τ → PoolSystem τ × List (WorkerEvent τ)
  | .worker i =>
    match s.workers[i]? with
    | some pc =>
      let r := s.pool.runInThread pc
      ({ pool := r.2.1, workers := s.workers.set i r.1 }, r.2.2)
    | none => (s, [])
  | .run task =>
    ({ s with pool := (s.pool.run task).state }, (s.pool.run task).events.map .pool)
  | .stopLocked =>
    ({ s with pool := s.pool.stopLocked.1 }, s.pool.stopLocked.2.map .pool)

/-- A schedule executed from `s`: the final system and all events in order. -/
def exec (s : PoolSystem τ) : List (Action τ) → PoolSystem τ × List (WorkerEvent τ)
  | [] => (s, [])
  | a :: acts =>
    let r := s.act a
    let rest := exec r.1 acts
    (rest.1, r.2 ++ rest.2)

end PoolSystem

/-! ## Theorems: the queues -/

section QueueLemmas

variable {T : Type}

theorem unbounded_putAll_eq (q : BlockingQueue T) (xs : List T) :
    q.putAll xs = ⟨q.queue_ ++ xs⟩ := by
  induction xs generalizing q with
  | nil => simp [BlockingQueue.putAll]
  | cons x xs ih => simp [BlockingQueue.putAll, ih, BlockingQueue.put, Outcome.state]

theorem unbounded_takeN_append (xs rest : List T) :
    BlockingQueue.takeN xs.length ⟨xs ++ rest⟩ = some (xs, ⟨rest⟩) := by
  induction xs with
  | nil => simp [BlockingQueue.takeN]
  | cons x xs ih => simp [BlockingQueue.takeN, BlockingQueue.take, ih]

theorem bounded_putAll_eq (cap : Nat) (es xs : List T)
    (h : es.length + xs.length ≤ cap) :
    BoundedBlockingQueue.putAll ⟨⟨cap, es⟩⟩ xs = some ⟨⟨cap, es ++ xs⟩⟩ := by
  induction xs generalizing es with
  | nil => simp [BoundedBlockingQueue.putAll]
  | cons x xs ih =>
    simp only [List.length_cons] at h
    have hne : cap ≠ es.length := by omega
    have hstep : BoundedBlockingQueue.put ⟨⟨cap, es⟩⟩ x
        = .returned ⟨⟨cap, es ++ [x]⟩⟩ () [.notify .notEmpty] := by
      simp [BoundedBlockingQueue.put, CircularBuffer.full, CircularBuffer.size,
        CircularBuffer.push_back, hne]
    simp only [BoundedBlockingQueue.putAll, hstep]
    rw [ih (es ++ [x]) (by simp; omega)]
    simp

theorem bounded_takeN_append (cap : Nat) (xs rest : List T) :
    BoundedBlockingQueue.takeN xs.length ⟨⟨cap, xs ++ rest⟩⟩ = some (xs, ⟨⟨cap, rest⟩⟩) := by
  induction xs with
  | nil => simp [BoundedBlockingQueue.takeN]
  | cons x xs ih =>
    simp [BoundedBlockingQueue.takeN, BoundedBlockingQueue.take, CircularBuffer.empty,
      CircularBuffer.size, CircularBuffer.front?, CircularBuffer.pop_front, ih]

end QueueLemmas

/-- C1 (FIFO). Starting from an empty queue, `put(x)` for each `x` of `xs` in
order followed by `length xs` calls of `take` returns exactly `xs` in order
and leaves the queue empty: for `BlockingQueue` for every `xs`; for a
`BoundedBlockingQueue` built with capacity `k` for every `xs` with
`length xs ≤ k` (none of the puts and takes waits). -/
theorem C1_fifo_put_then_take (T : Type) (xs : List T) :
    BlockingQueue.takeN xs.length (BlockingQueue.putAll BlockingQueue.new xs)
        = some (xs, BlockingQueue.new)
    ∧ ∀ k : Nat, xs.length ≤ k →
        ∃ q0 q1 : BoundedBlockingQueue T,
          BoundedBlockingQueue.new (k : Int) = .ok q0 ∧ q0.capacity = k ∧ q0.size = 0 ∧
          BoundedBlockingQueue.putAll q0 xs = some q1 ∧
          BoundedBlockingQueue.takeN xs.length q1 = some (xs, q0) := by
  refine ⟨?_, ?_⟩
  · rw [unbounded_putAll_eq]
    simpa [BlockingQueue.new] using unbounded_takeN_append xs []
  · intro k hk
    refine ⟨⟨⟨k, []⟩⟩, ⟨⟨k, xs⟩⟩, ?_, rfl, rfl, ?_, ?_⟩
    · simp [BoundedBlockingQueue.new, CircularBuffer.new]
    · simpa using bounded_putAll_eq k [] xs (by simpa using hk)
    · simpa using bounded_takeN_append k xs []

/-- Witness for C1: three items through both queues, the bounded one of
capacity 3. -/
theorem C1_fifo_put_then_take_witness :
    [10, 20, 30].length ≤ 3 ∧
    (BlockingQueue.takeN 3 (BlockingQueue.putAll BlockingQueue.new [10, 20, 30])
        = some ([10, 20, 30], BlockingQueue.new)
    ∧ ∃ q0 q1 : BoundedBlockingQueue Nat,
          BoundedBlockingQueue.new ((3 : Nat) : Int) = .ok q0 ∧ q0.capacity = 3 ∧ q0.size = 0 ∧
          BoundedBlockingQueue.putAll q0 [10, 20, 30] = some q1 ∧
          BoundedBlockingQueue.takeN 3 q1 = some ([10, 20, 30], q0)) :=
  ⟨by decide, (C1_fifo_put_then_take Nat [10, 20, 30]).1,
    (C1_fifo_put_then_take Nat [10, 20, 30]).2 3 (by decide)⟩

section BoundedInvariant

variable {T : Type}

theorem bounded_step_capacity (q : BoundedBlockingQueue T)
    (op : BoundedBlockingQueue.Op T) : (q.step op).capacity = q.capacity := by
  cases op with
  | put x =>
    simp only [BoundedBlockingQueue.step, BoundedBlockingQueue.put,
      BoundedBlockingQueue.capacity, CircularBuffer.push_back]
    split <;> simp [Outcome.state]
  | take =>
    simp only [BoundedBlockingQueue.step, BoundedBlockingQueue.take,
      BoundedBlockingQueue.capacity]
    split
    · simp [Outcome.state]
    · split <;> simp [Outcome.state, CircularBuffer.pop_front]

theorem bounded_step_size_le (q : BoundedBlockingQueue T)
    (op : BoundedBlockingQueue.Op T) (h : q.size ≤ q.capacity) :
    (q.step op).size ≤ q.capacity := by
  cases op with
  | put x =>
    simp only [BoundedBlockingQueue.size, BoundedBlockingQueue.capacity,
      CircularBuffer.size] at h
    simp only [BoundedBlockingQueue.step, BoundedBlockingQueue.put,
      BoundedBlockingQueue.capacity, BoundedBlockingQueue.size, CircularBuffer.push_back]
    by_cases hf : q.queue_.full = true
    · simpa [hf, Outcome.state, CircularBuffer.size] using h
    · have hne : q.queue_.capacity ≠ q.queue_.elems.length := by
        simpa [CircularBuffer.full, CircularBuffer.size] using hf
      simp [hf, Outcome.state, CircularBuffer.size]
      omega
  | take =>
    simp only [BoundedBlockingQueue.size, BoundedBlockingQueue.capacity,
      CircularBuffer.size] at h
    simp only [BoundedBlockingQueue.step, BoundedBlockingQueue.take,
      BoundedBlockingQueue.capacity, BoundedBlockingQueue.size]
    split
    · simpa [Outcome.state, CircularBuffer.size] using h
    · split
      · simp [Outcome.state, CircularBuffer.pop_front, CircularBuffer.size]
        omega
      · simpa [Outcome.state, CircularBuffer.size] using h

theorem bounded_steps_invariant (q : BoundedBlockingQueue T)
    (ops : List (BoundedBlockingQueue.Op T)) (h : q.size ≤ q.capacity) :
    (q.steps ops).capacity = q.capacity ∧ (q.steps ops).size ≤ q.capacity := by
  induction ops generalizing q with
  | nil => exact ⟨rfl, h⟩
  | cons op ops ih =>
    have hc := bounded_step_capacity q op
    have hs := bounded_step_size_le q op h
    have := ih (q.step op) (by rw [hc]; exact hs)
    simpa [BoundedBlockingQueue.steps, hc] using this

end BoundedInvariant

/-- C2 (bounded capacity invariant). A `BoundedBlockingQueue` constructed with
capacity `k` satisfies, in every state reached from the empty queue by any
interleaving of `put` and `take` steps: `0 ≤ size() ≤ k`, `capacity() == k`,
`empty()` iff `size() == 0`, and `full()` iff `size() == k`. -/
theorem C2_bounded_capacity_invariant (T : Type) (k : Nat) :
    ∃ q0 : BoundedBlockingQueue T,
      BoundedBlockingQueue.new (k : Int) = .ok q0 ∧ q0.size = 0 ∧
      ∀ ops : List (BoundedBlockingQueue.Op T),
        0 ≤ (q0.steps ops).size ∧ (q0.steps ops).size ≤ k ∧
        (q0.steps ops).capacity = k ∧
        ((q0.steps ops).empty = true ↔ (q0.steps ops).size = 0) ∧
        ((q0.steps ops).full = true ↔ (q0.steps ops).size = k) := by
  refine ⟨⟨⟨k, []⟩⟩, ?_, rfl, ?_⟩
  · simp [BoundedBlockingQueue.new, CircularBuffer.new]
  · intro ops
    have h := bounded_steps_invariant (⟨⟨k, []⟩⟩ : BoundedBlockingQueue T) ops
      (by simp [BoundedBlockingQueue.size, CircularBuffer.size])
    obtain ⟨hc, hs⟩ := h
    simp only [BoundedBlockingQueue.capacity] at hc hs
    refine ⟨Nat.zero_le _, hs, hc, ?_, ?_⟩
    · simp [BoundedBlockingQueue.empty, BoundedBlockingQueue.size, CircularBuffer.empty]
    · simp only [BoundedBlockingQueue.full, BoundedBlockingQueue.size, CircularBuffer.full,
        beq_iff_eq, hc]
      exact eq_comm

/-- C3 (put on a full queue waits; a completed put appends). For every queue
state and item `x`: when `size() == capacity()` the call `put(x)` is in its
wait loop and the stored sequence is unchanged; `put(x)` waits only when the
queue is full and never faults; and when `put(x)` returns, the stored sequence
is the previous one with `x` appended at the tail, capacity unchanged. -/
theorem C3_put_full_waits_else_appends (T : Type) (q : BoundedBlockingQueue T) (x : T) :
    (q.size = q.capacity → q.put x = .waiting q) ∧
    ((q.put x).isWaiting = true → q.size = q.capacity) ∧
    (∀ f evs q1, q.put x ≠ .faulted q1 evs f) ∧
    (∀ q1 r evs, q.put x = .returned q1 r evs →
        q1.queue_.elems = q.queue_.elems ++ [x] ∧ q1.capacity = q.capacity ∧
        q1.size = q.size + 1) := by
  simp only [BoundedBlockingQueue.put, BoundedBlockingQueue.size,
    BoundedBlockingQueue.capacity, CircularBuffer.full, CircularBuffer.size,
    CircularBuffer.push_back]
  by_cases hf : q.queue_.capacity = q.queue_.elems.length
  · simp [hf, Outcome.isWaiting]
  · have hf2 : ¬ q.queue_.elems.length = q.queue_.capacity := fun h => hf h.symm
    simp [hf, hf2, Outcome.isWaiting]

/-- Witness for C3: a full queue of capacity 2, and a queue of capacity 2
holding one item. -/
theorem C3_put_full_waits_else_appends_witness :
    (BoundedBlockingQueue.size (⟨⟨2, [5, 6]⟩⟩ : BoundedBlockingQueue Nat)
        = BoundedBlockingQueue.capacity (⟨⟨2, [5, 6]⟩⟩ : BoundedBlockingQueue Nat)
      ∧ BoundedBlockingQueue.put (⟨⟨2, [5, 6]⟩⟩ : BoundedBlockingQueue Nat) 7
        = .waiting ⟨⟨2, [5, 6]⟩⟩)
    ∧ ((BoundedBlockingQueue.put (⟨⟨2, [5, 6]⟩⟩ : BoundedBlockingQueue Nat) 7).isWaiting = true
      ∧ BoundedBlockingQueue.size (⟨⟨2, [5, 6]⟩⟩ : BoundedBlockingQueue Nat)
        = BoundedBlockingQueue.capacity (⟨⟨2, [5, 6]⟩⟩ : BoundedBlockingQueue Nat))
    ∧ (BoundedBlockingQueue.put (⟨⟨2, [5]⟩⟩ : BoundedBlockingQueue Nat) 7
        = .returned ⟨⟨2, [5, 7]⟩⟩ () [.notify .notEmpty]
      ∧ (⟨⟨2, [5, 7]⟩⟩ : BoundedBlockingQueue Nat).queue_.elems = [5] ++ [7]) :=
  ⟨⟨rfl, (C3_put_full_waits_else_appends Nat ⟨⟨2, [5, 6]⟩⟩ 7).1 rfl⟩,
    ⟨rfl, (C3_put_full_waits_else_appends Nat ⟨⟨2, [5, 6]⟩⟩ 7).2.1 rfl⟩,
    ⟨rfl, ((C3_put_full_waits_else_appends Nat ⟨⟨2, [5]⟩⟩ 7).2.2.2 ⟨⟨2, [5, 7]⟩⟩ ()
      [.notify .notEmpty] rfl).1⟩⟩

/-- C4, counterexample. The constructor accepts `maxSize = 0`; the queue it
builds has capacity 0, is empty and full at once, and a `put` on this empty
queue waits. -/
theorem C4_capacity_ge_one_counterexample :
    BoundedBlockingQueue.new (0 : Int) = .ok (⟨⟨0, []⟩⟩ : BoundedBlockingQueue Nat)
    ∧ ¬ (1 ≤ BoundedBlockingQueue.capacity (⟨⟨0, []⟩⟩ : BoundedBlockingQueue Nat))
    ∧ BoundedBlockingQueue.empty (⟨⟨0, []⟩⟩ : BoundedBlockingQueue Nat) = true
    ∧ BoundedBlockingQueue.full (⟨⟨0, []⟩⟩ : BoundedBlockingQueue Nat) = true
    ∧ BoundedBlockingQueue.put (⟨⟨0, []⟩⟩ : BoundedBlockingQueue Nat) 7 = .waiting ⟨⟨0, []⟩⟩ := by
  refine ⟨rfl, by decide, rfl, rfl, rfl⟩

/-- C4, amended. The constructor accepts exactly the arguments `maxSize ≥ 0`
and the constructed queue has `capacity() == maxSize`. For `maxSize ≥ 1` the
capacity is at least 1, and in every state reached by `put` and `take` steps
`empty()` and `full()` are not both true and a `put` on an empty queue does
not wait. For `maxSize == 0` every reached state is empty and full and every
`put` waits. -/
theorem C4_capacity_amended (T : Type) (maxSize : Int) (q0 : BoundedBlockingQueue T)
    (h : BoundedBlockingQueue.new maxSize = .ok q0) :
    0 ≤ maxSize ∧ (q0.capacity : Int) = maxSize ∧ q0.size = 0 ∧
    (1 ≤ maxSize → 1 ≤ q0.capacity ∧
      ∀ ops : List (BoundedBlockingQueue.Op T),
        ¬ ((q0.steps ops).empty = true ∧ (q0.steps ops).full = true) ∧
        ((q0.steps ops).empty = true → ∀ x, ((q0.steps ops).put x).isReturned = true)) ∧
    (maxSize = 0 →
      ∀ ops : List (BoundedBlockingQueue.Op T),
        (q0.steps ops).empty = true ∧ (q0.steps ops).full = true ∧
        ∀ x, (q0.steps ops).put x = .waiting (q0.steps ops)) := by
  simp only [BoundedBlockingQueue.new] at h
  split at h
  · cases h
  · rename_i hneg
    have hnn : 0 ≤ maxSize := not_lt.mp hneg
    injection h with h
    subst h
    have hcap : (BoundedBlockingQueue.capacity
        (⟨CircularBuffer.new maxSize.toNat⟩ : BoundedBlockingQueue T)) = maxSize.toNat := rfl
    have hinv := fun ops => bounded_steps_invariant
      (⟨CircularBuffer.new maxSize.toNat⟩ : BoundedBlockingQueue T) ops (Nat.zero_le _)
    refine ⟨hnn, ?_, rfl, ?_, ?_⟩
    · rw [hcap]; exact Int.toNat_of_nonneg hnn
    · intro h1
      have hk : 1 ≤ maxSize.toNat := by omega
      refine ⟨by rw [hcap]; exact hk, ?_⟩
      intro ops
      obtain ⟨hc, hs⟩ := hinv ops
      rw [hcap] at hc hs
      simp only [BoundedBlockingQueue.capacity, BoundedBlockingQueue.size,
        CircularBuffer.size] at hc hs
      simp only [BoundedBlockingQueue.empty, BoundedBlockingQueue.full, CircularBuffer.empty,
        CircularBuffer.full, CircularBuffer.size, beq_iff_eq, BoundedBlockingQueue.put]
      refine ⟨?_, ?_⟩
      · omega
      · intro he x
        have : ¬ (BoundedBlockingQueue.steps ⟨CircularBuffer.new maxSize.toNat⟩ ops).queue_.capacity
            = (BoundedBlockingQueue.steps ⟨CircularBuffer.new maxSize.toNat⟩ ops).queue_.elems.length := by
          omega
        simp [this, Outcome.isReturned]
    · intro h0
      intro ops
      obtain ⟨hc, hs⟩ := hinv ops
      rw [hcap] at hc hs
      have hz : maxSize.toNat = 0 := by omega
      simp only [BoundedBlockingQueue.capacity, BoundedBlockingQueue.size,
        CircularBuffer.size] at hc hs
      have hlen : (BoundedBlockingQueue.steps ⟨CircularBuffer.new maxSize.toNat⟩ ops).queue_.elems.length = 0 := by
        omega
      have hc0 : (BoundedBlockingQueue.steps ⟨CircularBuffer.new maxSize.toNat⟩ ops).queue_.capacity = 0 := by
        omega
      simp [BoundedBlockingQueue.empty, BoundedBlockingQueue.full, CircularBuffer.empty,
        CircularBuffer.full, CircularBuffer.size, BoundedBlockingQueue.put, hc0, hlen]

/-- Witness for the amended C4: a queue built with `maxSize = 2`, on which a
`put` in the empty state returns, and a queue built with `maxSize = 0`, on
which `put` waits. -/
theorem C4_capacity_amended_witness :
    (BoundedBlockingQueue.new (2 : Int) = .ok (⟨⟨2, []⟩⟩ : BoundedBlockingQueue Nat)
      ∧ (1 : Int) ≤ 2
      ∧ 1 ≤ BoundedBlockingQueue.capacity (⟨⟨2, []⟩⟩ : BoundedBlockingQueue Nat)
      ∧ BoundedBlockingQueue.empty
          (BoundedBlockingQueue.steps (⟨⟨2, []⟩⟩ : BoundedBlockingQueue Nat) []) = true
      ∧ (BoundedBlockingQueue.put
          (BoundedBlockingQueue.steps (⟨⟨2, []⟩⟩ : BoundedBlockingQueue Nat) []) 7).isReturned
          = true)
    ∧ (BoundedBlockingQueue.new (0 : Int) = .ok (⟨⟨0, []⟩⟩ : BoundedBlockingQueue Nat)
      ∧ BoundedBlockingQueue.put
          (BoundedBlockingQueue.steps (⟨⟨0, []⟩⟩ : BoundedBlockingQueue Nat) [.put 1, .take]) 7
        = .waiting
          (BoundedBlockingQueue.steps (⟨⟨0, []⟩⟩ : BoundedBlockingQueue Nat) [.put 1, .take])) :=
  ⟨⟨rfl, by decide, ((C4_capacity_amended Nat 2 ⟨⟨2, []⟩⟩ rfl).2.2.2.1 (by decide)).1, rfl,
      (((C4_capacity_amended Nat 2 ⟨⟨2, []⟩⟩ rfl).2.2.2.1 (by decide)).2 []).2 rfl 7⟩,
    ⟨rfl, (((C4_capacity_amended Nat 0 ⟨⟨0, []⟩⟩ rfl).2.2.2.2 rfl) [.put 1, .take]).2.2 7⟩⟩

/-! ## Theorems: the thread pool -/

section PoolLemmas

variable {τ : Type}

theorem thread_new_flags (n : String) (numCreated : Nat) :
    (Thread.new n numCreated).started_ = false ∧ (Thread.new n numCreated).joined_ = false := by
  unfold Thread.new Thread.setDefaultName
  split <;> simp

theorem pool_startLoop_eq (p : ThreadPool τ) (numCreated : Nat) (count i : Nat)
    (threads : List Thread) (evs : List (Event τ)) :
    ThreadPool.startLoop p numCreated count i threads evs
      = .returned
          (threads ++ (List.range' i count).map
            (fun j => { p.newWorker numCreated j with started_ := true })) ()
          (evs ++ (List.range' i count).map
            (fun j => Event.spawn j (p.newWorker numCreated j).name_)) := by
  induction count generalizing i threads evs with
  | zero => simp [ThreadPool.startLoop]
  | succ c ih =>
    have hs : (p.newWorker numCreated i).start
        = some { p.newWorker numCreated i with started_ := true } := by
      simp [Thread.start, ThreadPool.newWorker, (thread_new_flags _ _).1]
    simp [ThreadPool.startLoop, hs, ih, List.range'_succ]

theorem pool_joinLoop_eq (i : Nat) (done threads : List Thread) (evs : List (Event τ))
    (h : ∀ t ∈ threads, t.started_ = true ∧ t.joined_ = false) :
    ThreadPool.joinLoop i done evs threads
      = .returned (done ++ threads.map (fun t => { t with joined_ := true })) ()
          (evs ++ (List.range' i threads.length).map Event.join) := by
  induction threads generalizing i done evs with
  | nil => simp [ThreadPool.joinLoop]
  | cons t ts ih =>
    have ht := h t (List.mem_cons_self _ _)
    have hj : t.join = some { t with joined_ := true } := by
      simp [Thread.join, ht.1, ht.2]
    simp only [ThreadPool.joinLoop, hj]
    rw [ih (i + 1) _ _ (fun u hu => h u (List.mem_cons_of_mem _ hu))]
    simp [List.range'_succ]

theorem joinCount_append (a b : List (Event τ)) (i : Nat) :
    joinCount (a ++ b) i = joinCount a i + joinCount b i := by
  simp [joinCount]

theorem joinCount_spawns (f : Nat → String) (l : List Nat) (i : Nat) :
    joinCount (l.map (fun j => (Event.spawn j (f j) : Event τ))) i = 0 := by
  induction l with
  | nil => simp [joinCount]
  | cons a l ih =>
    simp only [joinCount] at ih
    simp [joinCount, List.filter_cons, Event.isJoin, ih]

theorem joinCount_joins (s n i : Nat) :
    joinCount ((List.range' s n).map (Event.join : Nat → Event τ)) i
      = if s ≤ i ∧ i < s + n then 1 else 0 := by
  induction n generalizing s with
  | zero =>
    have h2 : ¬ (s ≤ i ∧ i < s + 0) := by omega
    rw [if_neg h2]
    simp [joinCount]
  | succ n ih =>
    have ih2 := ih (s + 1)
    simp only [joinCount] at ih2
    simp only [joinCount, List.range'_succ, List.map_cons, List.filter_cons, Event.isJoin]
    by_cases hsi : s = i
    · subst hsi
      simp [ih2]
    · have : (s == i) = false := by simpa using hsi
      simp only [this, Bool.false_eq_true, ↓reduceIte, ih2]
      by_cases h1 : s + 1 ≤ i ∧ i < s + 1 + n
      · have h2 : s ≤ i ∧ i < s + (n + 1) := by omega
        simp [h1, h2]
      · have h2 : ¬ (s ≤ i ∧ i < s + (n + 1)) := by omega
        simp [h1, h2]

theorem pool_start_eq (p : ThreadPool τ) (n : Nat) (numCreated : Nat) (h : p.threads_ = []) :
    p.start (n : Int) numCreated
      = .returned
          { p with
            running_ := true
            threads_ := (List.range' 0 n).map
              (fun j => { p.newWorker numCreated j with started_ := true }) } ()
          ((List.range' 0 n).map (fun j => Event.spawn j (p.newWorker numCreated j).name_)
            ++ (match decide (n = 0), p.threadInitCallback_ with
                | true, some cb => [Event.invoke cb]
                | _, _ => [])) := by
  have hnn : ¬ ((n : Int) < 0) := by omega
  simp only [ThreadPool.start, h, List.isEmpty_nil, Bool.not_true, Bool.false_eq_true,
    ↓reduceIte, hnn, pool_startLoop_eq, Int.toNat_ofNat, List.nil_append]
  by_cases hz : n = 0
  · subst hz
    cases hcb : p.threadInitCallback_ <;> simp [ThreadPool.newWorker]
  · have hz2 : ¬ ((n : Int) = 0) := by omega
    simp [hz, hz2, ThreadPool.newWorker]

theorem pool_step_frame (p : ThreadPool τ) (op : ThreadPool.Op τ) :
    (p.step op).threads_ = p.threads_ ∧ (p.step op).maxQueueSize_ = p.maxQueueSize_ ∧
    (p.step op).running_ = p.running_ ∧ (p.step op).name_ = p.name_ ∧
    (p.step op).threadInitCallback_ = p.threadInitCallback_ := by
  cases op with
  | run task =>
    simp only [ThreadPool.step, ThreadPool.run]
    split
    · split <;> simp [Outcome.state]
    · split <;> simp [Outcome.state]
  | take =>
    simp only [ThreadPool.step, ThreadPool.take]
    split
    · simp [Outcome.state]
    · split <;> simp [Outcome.state]

theorem pool_step_queue_le (p : ThreadPool τ) (op : ThreadPool.Op τ)
    (hk : 0 < p.maxQueueSize_) (h : p.queue_.length ≤ p.maxQueueSize_) :
    (p.step op).queue_.length ≤ p.maxQueueSize_ := by
  cases op with
  | run task =>
    simp only [ThreadPool.step, ThreadPool.run]
    split
    · split <;> simpa [Outcome.state] using h
    · by_cases hf : p.isFull = true
      · simpa [hf, Outcome.state] using h
      · have hlt : p.queue_.length < p.maxQueueSize_ := by
          simp only [ThreadPool.isFull, Bool.and_eq_true, decide_eq_true_eq, not_and] at hf
          have := hf hk
          omega
        simp [hf, Outcome.state]
        omega
  | take =>
    simp only [ThreadPool.step, ThreadPool.take]
    split
    · simpa [Outcome.state] using h
    · split
      · simpa [Outcome.state] using h
      · rename_i task rest heq
        rw [heq] at h
        simp only [List.length_cons] at h
        simp [Outcome.state]
        omega

theorem pool_steps_frame (p : ThreadPool τ) (ops : List (ThreadPool.Op τ)) :
    (p.steps ops).threads_ = p.threads_ ∧ (p.steps ops).maxQueueSize_ = p.maxQueueSize_ ∧
    (p.steps ops).running_ = p.running_ ∧ (p.steps ops).name_ = p.name_ ∧
    (p.steps ops).threadInitCallback_ = p.threadInitCallback_ := by
  induction ops generalizing p with
  | nil => simp [ThreadPool.steps]
  | cons op ops ih =>
    obtain ⟨h1, h2, h3, h4, h5⟩ := pool_step_frame p op
    obtain ⟨g1, g2, g3, g4, g5⟩ := ih (p.step op)
    simp only [ThreadPool.steps, List.foldl_cons] at g1 g2 g3 g4 g5 ⊢
    exact ⟨g1.trans h1, g2.trans h2, g3.trans h3, g4.trans h4, g5.trans h5⟩

theorem pool_steps_queue_le (p : ThreadPool τ) (ops : List (ThreadPool.Op τ))
    (hk : 0 < p.maxQueueSize_) (h : p.queue_.length ≤ p.maxQueueSize_) :
    (p.steps ops).queue_.length ≤ p.maxQueueSize_ := by
  induction ops generalizing p with
  | nil => simpa [ThreadPool.steps] using h
  | cons op ops ih =>
    have hm := (pool_step_frame p op).2.1
    have := ih (p.step op) (by rw [hm]; exact hk) (by rw [hm]; exact pool_step_queue_le p op hk h)
    rw [hm] at this
    simpa [ThreadPool.steps] using this

theorem pool_run_waiting_iff (p : ThreadPool τ) (task : Task τ) :
    (p.run task).isWaiting = true ↔ (p.threads_ ≠ [] ∧ p.isFull = true) := by
  simp only [ThreadPool.run]
  cases hth : p.threads_ with
  | nil => cases task <;> simp [Outcome.isWaiting]
  | cons t ts =>
    by_cases hf : p.isFull = true <;> simp [hf, Outcome.isWaiting]

theorem pool_stop_eq (p : ThreadPool τ)
    (h : ∀ t ∈ p.threads_, t.started_ = true ∧ t.joined_ = false) :
    p.stop
      = .returned
          { p with
            running_ := false
            threads_ := p.threads_.map (fun t => { t with joined_ := true }) } ()
          (Event.signal (.notifyAll .notEmpty)
            :: (List.range' 0 p.threads_.length).map Event.join) := by
  simp only [ThreadPool.stop, ThreadPool.stopLocked]
  rw [pool_joinLoop_eq 0 [] p.threads_ _ h]
  simp

theorem pool_workers_fresh (p : ThreadPool τ) (numCreated n : Nat) :
    ∀ t ∈ (List.range' 0 n).map
        (fun j => ({ p.newWorker numCreated j with started_ := true } : Thread)),
      t.started_ = true ∧ t.joined_ = false := by
  intro t ht
  simp only [List.mem_map] at ht
  obtain ⟨j, -, rfl⟩ := ht
  simp [ThreadPool.newWorker, (thread_new_flags _ _).2]

theorem pool_runAll_no_threads (p : ThreadPool τ) (h : p.threads_ = []) (ts : List τ) :
    p.runAll (ts.map some) = (ts.map (fun t => .returned p () [Event.invoke t]), p) := by
  induction ts with
  | nil => simp [ThreadPool.runAll]
  | cons t ts ih =>
    have hr : p.run (some t) = .returned p () [Event.invoke t] := by
      simp [ThreadPool.run, h]
    simp only [List.map_cons, ThreadPool.runAll, hr, Outcome.state, ih]

theorem allEvents_invokes (p : ThreadPool τ) (ts : List τ) :
    Outcome.allEvents (ts.map (fun t =>
        (Outcome.returned p () [Event.invoke t] : Outcome (ThreadPool τ) Unit (Event τ))))
      = ts.map Event.invoke := by
  induction ts with
  | nil => simp [Outcome.allEvents]
  | cons t ts ih =>
    simp only [Outcome.allEvents] at ih
    simp only [Outcome.allEvents, List.map_cons, List.foldr_cons, ih]
    rfl

theorem joinCount_start_events (f : Nat → String) (l : List Nat) (b : Bool) (cb : Task τ)
    (i : Nat) :
    joinCount (l.map (fun j => (Event.spawn j (f j) : Event τ))
      ++ (match b, cb with
          | true, some c => [Event.invoke c]
          | _, _ => [])) i = 0 := by
  rw [joinCount_append, joinCount_spawns]
  cases b <;> cases cb <;> simp [joinCount, Event.isJoin]

theorem pool_run_eq (p : ThreadPool τ) (task : Task τ) (hth : p.threads_ ≠ []) :
    p.run task
      = if p.isFull = true then .waiting p
        else .returned { p with queue_ := p.queue_ ++ [task] } ()
          [Event.signal (.notify .notEmpty)] := by
  have hne : p.threads_.isEmpty = false := by
    cases hq : p.threads_ with
    | nil => exact absurd hq hth
    | cons t ts => rfl
  simp only [ThreadPool.run, hne, Bool.false_eq_true, ↓reduceIte]

theorem pool_steps_append (p : ThreadPool τ) (a b : List (ThreadPool.Op τ)) :
    p.steps (a ++ b) = (p.steps a).steps b := by
  simp [ThreadPool.steps, List.foldl_append]

theorem pool_steps_runs_bounded (p : ThreadPool τ) (tasks : List (Task τ))
    (hth : p.threads_ ≠ []) (hk : 0 < p.maxQueueSize_)
    (hle : p.queue_.length ≤ p.maxQueueSize_) :
    (p.steps (tasks.map ThreadPool.Op.run)).queue_
      = (p.queue_ ++ tasks).take p.maxQueueSize_ := by
  induction tasks generalizing p with
  | nil =>
    simp only [List.map_nil, ThreadPool.steps, List.foldl_nil, List.append_nil]
    exact (List.take_of_length_le hle).symm
  | cons t ts ih =>
    have hs : p.steps ((t :: ts).map ThreadPool.Op.run)
        = (p.step (.run t)).steps (ts.map ThreadPool.Op.run) := rfl
    obtain ⟨f1, f2, -, -, -⟩ := pool_step_frame p (.run t)
    have hle2 := pool_step_queue_le p (.run t) hk hle
    rw [hs, ih (p.step (.run t)) (by rw [f1]; exact hth) (by rw [f2]; exact hk)
      (by rw [f2]; exact hle2), f2]
    simp only [ThreadPool.step, pool_run_eq p t hth]
    by_cases hf : p.isFull = true
    · have hlen : p.queue_.length = p.maxQueueSize_ := by
        simp only [ThreadPool.isFull, Bool.and_eq_true, decide_eq_true_eq] at hf
        omega
      simp only [hf, ↓reduceIte, Outcome.state]
      rw [List.take_append_of_le_length (by omega), List.take_append_of_le_length (by omega)]
    · simp [hf, Outcome.state]

theorem pool_steps_runs_unbounded (p : ThreadPool τ) (tasks : List (Task τ))
    (hth : p.threads_ ≠ []) (h0 : p.maxQueueSize_ = 0) :
    (p.steps (tasks.map ThreadPool.Op.run)).queue_ = p.queue_ ++ tasks := by
  induction tasks generalizing p with
  | nil => simp [ThreadPool.steps]
  | cons t ts ih =>
    have hs : p.steps ((t :: ts).map ThreadPool.Op.run)
        = (p.step (.run t)).steps (ts.map ThreadPool.Op.run) := rfl
    obtain ⟨f1, f2, -, -, -⟩ := pool_step_frame p (.run t)
    rw [hs, ih (p.step (.run t)) (by rw [f1]; exact hth) (by rw [f2]; exact h0)]
    have hf : p.isFull = false := by simp [ThreadPool.isFull, h0]
    simp [ThreadPool.step, pool_run_eq p t hth, hf, Outcome.state]

theorem pool_take_step_queue (p : ThreadPool τ) (hr : p.running_ = true) :
    (p.step .take).queue_ = p.queue_.drop 1 := by
  simp only [ThreadPool.step, ThreadPool.take]
  cases hq : p.queue_ with
  | nil => simp [hr, Outcome.state, hq]
  | cons t rest => simp [Outcome.state]

end PoolLemmas

/-- C5 (pool backpressure). For a pool with at least one worker whose
`maxQueueSize` was set to `k > 0` before `start`: `start` returns, and in every
state reached by any interleaving of `run` and `take` steps `queueSize() ≤ k`,
`maxQueueSize` is still `k`, and `run` waits exactly when the queue holds `k`
tasks: there `run` waits with the pool unchanged, and in every other reached
state it returns having appended its task and signalled `notEmpty_`. The full
queue is reached: of any tasks submitted back to back the first `k` are
queued and the others wait, and one `take` then removes the head and so frees
a place. In every pool state with `maxQueueSize == 0`, `run` does not wait,
whatever the queue length: on a pool with workers it returns having appended
its task, so after `start` any number of submitted tasks are all queued. -/
theorem C5_pool_backpressure (τ : Type) (nameArg : String) (cb : Task τ)
    (n numCreated : Nat) (hn : 0 < n) :
    (∀ k : Nat, 0 < k → k < 2 ^ 31 →
      ∃ p1 evs, (ThreadPool.configured nameArg (k : Int) cb).start (n : Int) numCreated
          = .returned p1 () evs ∧ p1.queueSize = 0 ∧
        (∀ ops : List (ThreadPool.Op τ),
          (p1.steps ops).queueSize ≤ k ∧ (p1.steps ops).maxQueueSize_ = k ∧
          ∀ task, (((p1.steps ops).run task).isWaiting = true ↔ (p1.steps ops).queueSize = k)) ∧
        (∀ (ops : List (ThreadPool.Op τ)) (task : Task τ),
          (p1.steps ops).run task
            = if (p1.steps ops).queueSize = k then .waiting (p1.steps ops)
              else .returned
                { p1.steps ops with queue_ := (p1.steps ops).queue_ ++ [task] } ()
                [Event.signal (.notify .notEmpty)]) ∧
        (∀ tasks : List (Task τ),
          (p1.steps (tasks.map ThreadPool.Op.run)).queue_ = tasks.take k) ∧
        (∀ tasks : List (Task τ),
          (p1.steps (tasks.map ThreadPool.Op.run ++ [.take])).queue_
            = (tasks.take k).drop 1)) ∧
    (∀ p : ThreadPool τ, p.maxQueueSize_ = 0 → ∀ task, (p.run task).isWaiting = false) ∧
    (∀ p : ThreadPool τ, p.maxQueueSize_ = 0 → p.threads_ ≠ [] → ∀ task,
      p.run task = .returned { p with queue_ := p.queue_ ++ [task] } ()
        [Event.signal (.notify .notEmpty)]) ∧
    (∃ p1 evs, (ThreadPool.configured nameArg 0 cb).start (n : Int) numCreated
        = .returned p1 () evs ∧
      ∀ tasks : List (Task τ), (p1.steps (tasks.map ThreadPool.Op.run)).queue_ = tasks) := by
  have hworkers : ∀ q : ThreadPool τ, (List.range' 0 n).map
      (fun j => ({ q.newWorker numCreated j with started_ := true } : Thread)) ≠ [] := by
    intro q
    obtain ⟨m, rfl⟩ : ∃ m, n = m + 1 := ⟨n - 1, by omega⟩
    simp [List.range'_succ]
  refine ⟨?_, ?_, ?_, ?_⟩
  · intro k hk0 hk1
    have hmod : ((k : Int) % 2 ^ 64).toNat = k := by omega
    rw [pool_start_eq _ n numCreated rfl]
    refine ⟨_, _, rfl, rfl, ?_⟩
    generalize hp1 : ({ ThreadPool.configured nameArg (k : Int) cb with
        running_ := true
        threads_ := (List.range' 0 n).map
          (fun j => { (ThreadPool.configured nameArg (k : Int) cb).newWorker numCreated j with
            started_ := true }) } : ThreadPool τ) = p1
    have hmax : p1.maxQueueSize_ = k := by
      rw [← hp1]; simp only [ThreadPool.configured, ThreadPool.setMaxQueueSize,
        ThreadPool.setThreadInitCallback, ThreadPool.new, hmod]
    have hq : p1.queue_ = [] := by
      rw [← hp1]; simp [ThreadPool.configured, ThreadPool.setMaxQueueSize,
        ThreadPool.setThreadInitCallback, ThreadPool.new]
    have hrun : p1.running_ = true := by rw [← hp1]
    have hth : p1.threads_ ≠ [] := by
      rw [← hp1]; exact hworkers _
    have hfull : ∀ ops : List (ThreadPool.Op τ),
        ((p1.steps ops).isFull = true ↔ (p1.steps ops).queueSize = k) := by
      intro ops
      obtain ⟨-, f2, -, -, -⟩ := pool_steps_frame p1 ops
      have hle := pool_steps_queue_le p1 ops (by omega) (by simp [hq])
      rw [hmax] at hle f2
      simp only [ThreadPool.isFull, f2, ThreadPool.queueSize, Bool.and_eq_true,
        decide_eq_true_eq]
      constructor
      · rintro ⟨-, h2⟩; omega
      · intro h; exact ⟨hk0, by omega⟩
    have hruns : ∀ tasks : List (Task τ),
        (p1.steps (tasks.map ThreadPool.Op.run)).queue_ = tasks.take k := by
      intro tasks
      rw [pool_steps_runs_bounded p1 tasks hth (by omega) (by simp [hq]), hmax, hq,
        List.nil_append]
    refine ⟨?_, ?_, hruns, ?_⟩
    · intro ops
      obtain ⟨f1, f2, -, -, -⟩ := pool_steps_frame p1 ops
      have hle := pool_steps_queue_le p1 ops (by omega) (by simp [hq])
      rw [hmax] at hle f2
      refine ⟨hle, f2, ?_⟩
      intro task
      rw [pool_run_waiting_iff, f1, hfull ops]
      exact ⟨fun h => h.2, fun h => ⟨hth, h⟩⟩
    · intro ops task
      obtain ⟨f1, -, -, -, -⟩ := pool_steps_frame p1 ops
      rw [pool_run_eq _ task (by rw [f1]; exact hth)]
      by_cases hf : (p1.steps ops).isFull = true
      · rw [if_pos hf, if_pos ((hfull ops).1 hf)]
      · rw [if_neg hf, if_neg (fun h => hf ((hfull ops).2 h))]
    · intro tasks
      obtain ⟨-, -, f3, -, -⟩ := pool_steps_frame p1 (tasks.map ThreadPool.Op.run)
      rw [pool_steps_append]
      have hone : (p1.steps (tasks.map ThreadPool.Op.run)).steps [.take]
          = (p1.steps (tasks.map ThreadPool.Op.run)).step .take := rfl
      rw [hone, pool_take_step_queue _ (by rw [f3]; exact hrun), hruns]
  · intro p hp task
    have : ¬ ((p.run task).isWaiting = true) := by
      rw [pool_run_waiting_iff]
      simp [ThreadPool.isFull, hp]
    simpa using this
  · intro p hp hth task
    have hf : ¬ (p.isFull = true) := by simp [ThreadPool.isFull, hp]
    rw [pool_run_eq p task hth, if_neg hf]
  · have h0 := pool_start_eq (ThreadPool.configured nameArg 0 cb) n numCreated rfl
    rw [h0]
    refine ⟨_, _, rfl, ?_⟩
    intro tasks
    rw [pool_steps_runs_unbounded _ tasks (hworkers _) rfl]
    rfl

/-- Witness for C5: one worker and `maxQueueSize = 1`, three tasks submitted
back to back: the first is queued, the second and third wait; after one `take`
the queue is empty again and the next `run` is accepted. And a pool with
`maxQueueSize = 0` holding two tasks accepts a third. -/
theorem C5_pool_backpressure_witness :
    (0 < 1 ∧ 0 < 1 ∧ 1 < 2 ^ 31) ∧
    (∃ (p1 : ThreadPool Nat) (evs : List (Event Nat)),
      (ThreadPool.configured "pool" ((1 : Nat) : Int) none).start ((1 : Nat) : Int) 0
          = .returned p1 () evs ∧ p1.queueSize = 0 ∧
        (∀ ops : List (ThreadPool.Op Nat),
          (p1.steps ops).queueSize ≤ 1 ∧ (p1.steps ops).maxQueueSize_ = 1 ∧
          ∀ task, (((p1.steps ops).run task).isWaiting = true ↔ (p1.steps ops).queueSize = 1)) ∧
        (p1.steps [.run (some 1), .run (some 2), .run (some 3)]).queue_ = [some 1] ∧
        (p1.steps [.run (some 1), .run (some 2), .run (some 3)]).run (some 3)
          = .waiting (p1.steps [.run (some 1), .run (some 2), .run (some 3)]) ∧
        (p1.steps [.run (some 1), .run (some 2), .run (some 3), .take]).queue_ = [] ∧
        ((p1.steps [.run (some 1), .run (some 2), .run (some 3), .take]).run (some 3)).isReturned
          = true) ∧
    (ThreadPool.maxQueueSize_
        ({ name_ := "pool", threadInitCallback_ := none,
           threads_ := [⟨true, false, "pool1"⟩], queue_ := [some 7, some 8],
           maxQueueSize_ := 0, running_ := true } : ThreadPool Nat) = 0 ∧
      (ThreadPool.run
        ({ name_ := "pool", threadInitCallback_ := none,
           threads_ := [⟨true, false, "pool1"⟩], queue_ := [some 7, some 8],
           maxQueueSize_ := 0, running_ := true } : ThreadPool Nat) (some 9)).isWaiting = false ∧
      ThreadPool.run
        ({ name_ := "pool", threadInitCallback_ := none,
           threads_ := [⟨true, false, "pool1"⟩], queue_ := [some 7, some 8],
           maxQueueSize_ := 0, running_ := true } : ThreadPool Nat) (some 9)
        = .returned
          ({ name_ := "pool", threadInitCallback_ := none,
             threads_ := [⟨true, false, "pool1"⟩], queue_ := [some 7, some 8, some 9],
             maxQueueSize_ := 0, running_ := true } : ThreadPool Nat) ()
          [.signal (.notify .notEmpty)]) := by
  have hC := C5_pool_backpressure Nat "pool" none 1 0 (by decide)
  obtain ⟨p1, evs, h1, h2, h3, h4, h5, h6⟩ := hC.1 1 (by decide) (by decide)
  have q3 : (p1.steps [.run (some 1), .run (some 2), .run (some 3)]).queue_ = [some 1] :=
    h5 [some 1, some 2, some 3]
  have q4 : (p1.steps [.run (some 1), .run (some 2), .run (some 3), .take]).queue_ = [] :=
    h6 [some 1, some 2, some 3]
  refine ⟨by decide, ⟨p1, evs, h1, h2, h3, q3, ?_, q4, ?_⟩, rfl, hC.2.1 _ rfl (some 9),
    hC.2.2.1 _ rfl (by decide) (some 9)⟩
  · rw [h4, if_pos (by simp [ThreadPool.queueSize, q3])]
  · rw [h4, if_neg (by simp [ThreadPool.queueSize, q4])]
    rfl

/-- C6, the code at a failing input. A pool with one worker and
`maxQueueSize = 1` holding one queued task: once `stop` has cleared `running_`
the queue is still full, so the wait condition of `run` still holds and `run`
waits; and the only signal `stop` sends is `notEmpty_.notifyAll()`, none on
`notFull_`, the condition a producer in `run` waits on. -/
theorem C6_run_waits_after_stop :
    (((ThreadPool.configured "pool" 1 none : ThreadPool Nat).start 1 0).state.run (some 7))
      = .returned
          ({ name_ := "pool", threadInitCallback_ := none,
             threads_ := [⟨true, false, "pool1"⟩], queue_ := [some 7],
             maxQueueSize_ := 1, running_ := true } : ThreadPool Nat) ()
          [.signal (.notify .notEmpty)]
    ∧ ThreadPool.stopLocked
          ({ name_ := "pool", threadInitCallback_ := none,
             threads_ := [⟨true, false, "pool1"⟩], queue_ := [some 7],
             maxQueueSize_ := 1, running_ := true } : ThreadPool Nat)
        = (({ name_ := "pool", threadInitCallback_ := none,
              threads_ := [⟨true, false, "pool1"⟩], queue_ := [some 7],
              maxQueueSize_ := 1, running_ := false } : ThreadPool Nat),
           [.signal (.notifyAll .notEmpty)])
    ∧ ThreadPool.isFull
          ({ name_ := "pool", threadInitCallback_ := none,
             threads_ := [⟨true, false, "pool1"⟩], queue_ := [some 7],
             maxQueueSize_ := 1, running_ := false } : ThreadPool Nat) = true
    ∧ ThreadPool.run
          ({ name_ := "pool", threadInitCallback_ := none,
             threads_ := [⟨true, false, "pool1"⟩], queue_ := [some 7],
             maxQueueSize_ := 1, running_ := false } : ThreadPool Nat) (some 8)
        = .waiting
          ({ name_ := "pool", threadInitCallback_ := none,
             threads_ := [⟨true, false, "pool1"⟩], queue_ := [some 7],
             maxQueueSize_ := 1, running_ := false } : ThreadPool Nat)
    ∧ (ThreadPool.stop
          ({ name_ := "pool", threadInitCallback_ := none,
             threads_ := [⟨true, false, "pool1"⟩], queue_ := [some 7],
             maxQueueSize_ := 1, running_ := true } : ThreadPool Nat)).events
        = [.signal (.notifyAll .notEmpty), .join 0] := by
  refine ⟨by rfl, by rfl, by rfl, by rfl, by rfl⟩

/-- C7, the code at a failing input. After `start(0)` the vector `threads_` is
still empty, so the assertion of `start` passes again: a second `start(2)` is
accepted on the running pool, and also after `stop()`, where it sets
`running_` back to true. -/
theorem C7_second_start_accepted_after_start_zero :
    (ThreadPool.configured "pool" 0 none : ThreadPool Nat).start 0 0
      = .returned
          ({ name_ := "pool", threadInitCallback_ := none, threads_ := [], queue_ := [],
             maxQueueSize_ := 0, running_ := true } : ThreadPool Nat) () []
    ∧ ThreadPool.start
          ({ name_ := "pool", threadInitCallback_ := none, threads_ := [], queue_ := [],
             maxQueueSize_ := 0, running_ := true } : ThreadPool Nat) 2 0
        = .returned
          ({ name_ := "pool", threadInitCallback_ := none,
             threads_ := [⟨true, false, "pool1"⟩, ⟨true, false, "pool2"⟩], queue_ := [],
             maxQueueSize_ := 0, running_ := true } : ThreadPool Nat) ()
          [.spawn 0 "pool1", .spawn 1 "pool2"]
    ∧ ThreadPool.stop
          ({ name_ := "pool", threadInitCallback_ := none, threads_ := [], queue_ := [],
             maxQueueSize_ := 0, running_ := true } : ThreadPool Nat)
        = .returned
          ({ name_ := "pool", threadInitCallback_ := none, threads_ := [], queue_ := [],
             maxQueueSize_ := 0, running_ := false } : ThreadPool Nat) ()
          [.signal (.notifyAll .notEmpty)]
    ∧ ThreadPool.start
          ({ name_ := "pool", threadInitCallback_ := none, threads_ := [], queue_ := [],
             maxQueueSize_ := 0, running_ := false } : ThreadPool Nat) 2 0
        = .returned
          ({ name_ := "pool", threadInitCallback_ := none,
             threads_ := [⟨true, false, "pool1"⟩, ⟨true, false, "pool2"⟩], queue_ := [],
             maxQueueSize_ := 0, running_ := true } : ThreadPool Nat) ()
          [.spawn 0 "pool1", .spawn 1 "pool2"] := by
  refine ⟨by rfl, by rfl, by rfl, by rfl⟩

/-- Supporting fact for C7: after `start(m)` with `m ≥ 1` workers a further
`start(n)` fails the assertion, directly and after `stop()`, and leaves the
pool as it was. -/
theorem pool_second_start_rejected (τ : Type) (nameArg : String) (maxSize : Int)
    (cb : Task τ) (m numCreated : Nat) (n : Int) (numCreated2 : Nat) (hm : 0 < m) :
    ∃ p1 evs1 p2 evs2,
      (ThreadPool.configured nameArg maxSize cb).start (m : Int) numCreated
        = .returned p1 () evs1 ∧
      p1.start n numCreated2 = .faulted p1 [] .assertion ∧
      p1.stop = .returned p2 () evs2 ∧ p2.running_ = false ∧
      p2.start n numCreated2 = .faulted p2 [] .assertion := by
  rw [pool_start_eq _ m numCreated rfl]
  obtain ⟨m1, rfl⟩ : ∃ m1, m = m1 + 1 := ⟨m - 1, by omega⟩
  refine ⟨_, _, _, _, rfl, ?_, pool_stop_eq _ (pool_workers_fresh _ numCreated (m1 + 1)), rfl, ?_⟩
  · simp [ThreadPool.start, List.range'_succ]
  · simp [ThreadPool.start, List.range'_succ]

/-- C8, counterexample. On a pool on which `start(1)` has been called,
`setMaxQueueSize(5)` is carried out and changes `maxQueueSize_` from 0 to 5,
and `setThreadInitCallback` replaces the (empty) init callback. -/
theorem C8_config_after_start_counterexample :
    (ThreadPool.configured "pool" 0 none : ThreadPool Nat).start 1 0
      = .returned
          ({ name_ := "pool", threadInitCallback_ := none,
             threads_ := [⟨true, false, "pool1"⟩], queue_ := [],
             maxQueueSize_ := 0, running_ := true } : ThreadPool Nat) ()
          [.spawn 0 "pool1"]
    ∧ ThreadPool.setMaxQueueSize
          ({ name_ := "pool", threadInitCallback_ := none,
             threads_ := [⟨true, false, "pool1"⟩], queue_ := [],
             maxQueueSize_ := 0, running_ := true } : ThreadPool Nat) 5
        = ({ name_ := "pool", threadInitCallback_ := none,
             threads_ := [⟨true, false, "pool1"⟩], queue_ := [],
             maxQueueSize_ := 5, running_ := true } : ThreadPool Nat)
    ∧ ThreadPool.setThreadInitCallback
          ({ name_ := "pool", threadInitCallback_ := none,
             threads_ := [⟨true, false, "pool1"⟩], queue_ := [],
             maxQueueSize_ := 0, running_ := true } : ThreadPool Nat) (some 9)
        = ({ name_ := "pool", threadInitCallback_ := some 9,
             threads_ := [⟨true, false, "pool1"⟩], queue_ := [],
             maxQueueSize_ := 0, running_ := true } : ThreadPool Nat) := by
  refine ⟨by rfl, by rfl, by rfl⟩

/-- C8, amended. In every pool state, also after `start`, the two setters are
carried out unchecked: `setMaxQueueSize(n)` stores `n` converted to `size_t`
in `maxQueueSize_` (which is `n` itself for `0 ≤ n`), `setThreadInitCallback(cb)`
stores `cb`, and each leaves every other member as it was. -/
theorem C8_config_setters_unchecked (τ : Type) (p : ThreadPool τ) (n : Int) (cb : Task τ) :
    ((p.setMaxQueueSize n).maxQueueSize_ : Int) = n % 2 ^ 64 ∧
    (n % 2 ^ 31 = n → ((p.setMaxQueueSize n).maxQueueSize_ : Int) = n) ∧
    p.setMaxQueueSize n = { p with maxQueueSize_ := (p.setMaxQueueSize n).maxQueueSize_ } ∧
    (p.setThreadInitCallback cb).threadInitCallback_ = cb ∧
    p.setThreadInitCallback cb = { p with threadInitCallback_ := cb } := by
  have h64 : (0 : Int) ≤ n % 2 ^ 64 := Int.emod_nonneg _ (by norm_num)
  refine ⟨?_, ?_, rfl, rfl, rfl⟩
  · simp only [ThreadPool.setMaxQueueSize]
    exact Int.toNat_of_nonneg h64
  · intro h
    simp only [ThreadPool.setMaxQueueSize]
    rw [Int.toNat_of_nonneg h64]
    omega

/-- Witness for the amended C8: `setMaxQueueSize(5)` on a started pool. -/
theorem C8_config_setters_unchecked_witness :
    (5 : Int) % 2 ^ 31 = 5 ∧
    ((ThreadPool.setMaxQueueSize
        ({ name_ := "pool", threadInitCallback_ := none,
           threads_ := [⟨true, false, "pool1"⟩], queue_ := [],
           maxQueueSize_ := 0, running_ := true } : ThreadPool Nat) 5).maxQueueSize_ : Int) = 5 :=
  ⟨by decide, (C8_config_setters_unchecked Nat _ 5 none).2.1 (by decide)⟩

/-- C9 (zero-worker mode). On a pool started with `start(0)`, whatever
`maxQueueSize` and init callback were configured, submitting the tasks `ts` in
order with `run`: every call returns without waiting, its own events are
exactly the one invocation of its task (so the task has run once when the call
returns), the invocations over all calls are `ts` in submission order, and the
pool, with `queueSize() == 0`, is unchanged. -/
theorem C9_zero_worker_mode (τ : Type) (nameArg : String) (maxSize : Int) (cb : Task τ)
    (numCreated : Nat) (ts : List τ) :
    ∃ p1 evs,
      (ThreadPool.configured nameArg maxSize cb).start 0 numCreated = .returned p1 () evs ∧
      p1.queueSize = 0 ∧
      p1.runAll (ts.map some) = (ts.map (fun t => .returned p1 () [Event.invoke t]), p1) ∧
      Outcome.allEvents (p1.runAll (ts.map some)).1 = ts.map Event.invoke ∧
      (p1.runAll (ts.map some)).1.all
        (fun o => o.isReturned && o.state.queueSize == 0) = true ∧
      (p1.runAll (ts.map some)).2.queueSize = 0 := by
  have hs := pool_start_eq (ThreadPool.configured nameArg maxSize cb) 0 numCreated rfl
  simp only [Nat.cast_zero] at hs
  rw [hs]
  refine ⟨_, _, rfl, rfl, ?_⟩
  rw [pool_runAll_no_threads _ (by simp) ts]
  refine ⟨rfl, allEvents_invokes _ ts, ?_, rfl⟩
  rw [List.all_eq_true]
  intro o ho
  simp only [List.mem_map] at ho
  obtain ⟨t, -, rfl⟩ := ho
  rfl

/-- C10 (stop joins every spawned worker exactly once). For a pool started
with `n` workers: `stop()` returns with `running_` false, having sent
`notEmpty_.notifyAll()` and then called `join` on worker 0, 1, ..., n-1 in
that order, each once, and leaves every worker joined. The destructor after
`stop()` does nothing, and the destructor without an earlier `stop()` does
what `stop()` does. Over either life of the pool every worker `i < n` is
joined exactly once. -/
theorem C10_stop_joins_each_worker_once (τ : Type) (nameArg : String) (maxSize : Int)
    (cb : Task τ) (n numCreated : Nat) :
    ∃ p1 evs1 p2 evs2,
      (ThreadPool.configured nameArg maxSize cb).start (n : Int) numCreated
        = .returned p1 () evs1 ∧
      p1.threads_.length = n ∧ p1.running_ = true ∧
      p1.threads_.all (fun t => t.started_ && !t.joined_) = true ∧
      p1.stop = .returned p2 () evs2 ∧ p2.running_ = false ∧
      evs2 = Event.signal (.notifyAll .notEmpty) :: (List.range n).map Event.join ∧
      p2.threads_.length = n ∧ p2.threads_.all (fun t => t.started_ && t.joined_) = true ∧
      p2.destroy = .returned p2 () [] ∧
      p1.destroy = .returned p2 () evs2 ∧
      (∀ i, joinCount (evs1 ++ evs2 ++ p2.destroy.events) i = if i < n then 1 else 0) ∧
      (∀ i, joinCount (evs1 ++ p1.destroy.events) i = if i < n then 1 else 0) := by
  rw [pool_start_eq _ n numCreated rfl]
  have hfresh := pool_workers_fresh (ThreadPool.configured nameArg maxSize cb) numCreated n
  have hstop := pool_stop_eq
    ({ ThreadPool.configured nameArg maxSize cb with
        running_ := true
        threads_ := (List.range' 0 n).map
          (fun j => { (ThreadPool.configured nameArg maxSize cb).newWorker numCreated j with
            started_ := true }) } : ThreadPool τ) hfresh
  simp only [List.length_map, List.length_range'] at hstop
  have hjoins : ∀ i, joinCount
      (Event.signal (.notifyAll .notEmpty) :: (List.range' 0 n).map (Event.join : Nat → Event τ)) i
        = if i < n then 1 else 0 := by
    intro i
    have := joinCount_joins (τ := τ) 0 n i
    simp only [joinCount] at this
    simp only [joinCount, List.filter_cons, Event.isJoin, Bool.false_eq_true, ↓reduceIte, this]
    simp
  refine ⟨_, _, _, _, rfl, ?_, rfl, ?_, hstop, rfl, ?_, ?_, ?_, ?_, ?_, ?_, ?_⟩
  · simp
  · rw [List.all_eq_true]
    intro t ht
    have := hfresh t ht
    simp [this.1, this.2]
  · rw [List.range_eq_range']
  · simp
  · rw [List.all_eq_true]
    intro t ht
    simp only [List.mem_map] at ht
    obtain ⟨u, hu, rfl⟩ := ht
    have := (hfresh u (by simpa using hu)).1
    simp [this]
  · simp [ThreadPool.destroy]
  · simp only [ThreadPool.destroy, ↓reduceIte]
    exact hstop
  · intro i
    simp only [ThreadPool.destroy, Bool.false_eq_true, ↓reduceIte, Outcome.events,
      List.append_nil]
    rw [joinCount_append, joinCount_start_events, hjoins]
    simp
  · intro i
    simp only [ThreadPool.destroy, ↓reduceIte, hstop, Outcome.events]
    rw [joinCount_append, joinCount_start_events, hjoins]
    simp

/-! ## Theorems: worker names, the worker loop, shutdown -/

section WorkerLemmas

variable {τ : Type}

theorem toDigitsCore_ne_nil (b fuel n : Nat) (ds : List Char) :
    Nat.toDigitsCore b (fuel + 1) n ds ≠ [] := by
  induction fuel generalizing n ds with
  | zero =>
    simp only [Nat.toDigitsCore]
    split <;> simp
  | succ f ih =>
    rw [Nat.toDigitsCore]
    split
    · simp
    · exact ih _ _

theorem decimal_ne_empty (k : Nat) : toString k ≠ "" := by
  intro h
  have hd : (toString k).data = [] := by rw [h]
  have : (toString k).data = Nat.toDigits 10 k := rfl
  rw [this, Nat.toDigits] at hd
  exact toDigitsCore_ne_nil 10 k k [] hd

theorem worker_name_kept (s : String) (k numCreated : Nat) :
    (Thread.new (s ++ toString k) numCreated).name_ = s ++ toString k := by
  have hne : (s ++ toString k).isEmpty = false := by
    cases hb : (s ++ toString k).isEmpty with
    | false => rfl
    | true =>
      have h0 : s ++ toString k = "" := (String.isEmpty_iff _).1 hb
      have h1 : (s ++ toString k).data = [] := by rw [h0]
      rw [String.data_append] at h1
      have h2 : (toString k).data = [] := (List.append_eq_nil.1 h1).2
      exact absurd (String.ext h2) (decimal_ne_empty k)
  simp [Thread.new, Thread.setDefaultName, hne]

theorem initCallbackCount_append (a b : List (WorkerEvent τ)) :
    initCallbackCount (a ++ b) = initCallbackCount a + initCallbackCount b := by
  simp [initCallbackCount]

theorem initCallbackCount_pool (evs : List (Event τ)) :
    initCallbackCount (evs.map WorkerEvent.pool) = 0 := by
  induction evs with
  | nil => rfl
  | cons e evs ih =>
    simp only [initCallbackCount] at ih
    simp [initCallbackCount, List.filter_cons, WorkerEvent.isInitCallback, ih]

theorem runInThread_after_init (p : ThreadPool τ) (pc : WorkerPc τ) (h : pc ≠ .init) :
    (p.runInThread pc).1 ≠ .init ∧ initCallbackCount (p.runInThread pc).2.2 = 0 := by
  cases pc with
  | init => exact absurd rfl h
  | loopTest =>
    simp only [ThreadPool.runInThread]
    refine ⟨?_, rfl⟩
    split <;> simp
  | inTake =>
    simp only [ThreadPool.runInThread]
    split
    · exact ⟨by simp, rfl⟩
    · refine ⟨by simp, ?_⟩
      rw [initCallbackCount_append, initCallbackCount_pool]
      rfl
    · exact ⟨by simp, initCallbackCount_pool _⟩
  | gotTask task =>
    cases task <;> exact ⟨by simp [ThreadPool.runInThread], rfl⟩
  | exited => exact ⟨by simp [ThreadPool.runInThread], rfl⟩

theorem workerTrace_after_init (ps : List (ThreadPool τ)) (pc : WorkerPc τ) (h : pc ≠ .init) :
    initCallbackCount (ThreadPool.workerTrace ps pc).2 = 0 := by
  induction ps generalizing pc with
  | nil => rfl
  | cons p ps ih =>
    obtain ⟨h1, h2⟩ := runInThread_after_init p pc h
    simp only [ThreadPool.workerTrace]
    rw [initCallbackCount_append, h2, ih _ h1]

end WorkerLemmas

/-- C11 (start spawns exactly n workers with deterministic names). For every
pool name `s` and every `n ≥ 0`, whatever the configuration and the value of
the thread counter, `start(n)` returns, the pool then owns exactly `n`
threads, all started, and the thread at position `i` is named `s` followed by
the decimal of `i+1`; thread `i` is spawned under that name. The constructor
of `Thread` keeps such a name for every value of the counter, so the default
name `Thread<num>` never replaces it. -/
theorem C11_start_spawns_named_workers (τ : Type) (s : String) (maxSize : Int)
    (cb : Task τ) (n numCreated : Nat) :
    ∃ p1 evs,
      (ThreadPool.configured s maxSize cb).start (n : Int) numCreated = .returned p1 () evs ∧
      p1.threads_.length = n ∧
      p1.threads_.map Thread.name_ = (List.range n).map (fun i => s ++ toString (i + 1)) ∧
      p1.threads_.all (fun t => t.started_) = true ∧
      evs.filter (fun e => match e with
          | .spawn _ _ => true
          | _ => false)
        = (List.range n).map (fun i => Event.spawn i (s ++ toString (i + 1))) ∧
      (∀ i num : Nat, (Thread.new (s ++ toString (i + 1)) num).name_ = s ++ toString (i + 1)) := by
  rw [pool_start_eq _ n numCreated rfl]
  refine ⟨_, _, rfl, by simp, ?_, ?_, ?_, fun i num => worker_name_kept s (i + 1) num⟩
  · simp only [List.map_map, List.range_eq_range']
    apply List.map_congr_left
    intro i _
    simp only [Function.comp, ThreadPool.newWorker]
    exact worker_name_kept s (i + 1) _
  · rw [List.all_eq_true]
    intro t ht
    simp only [List.mem_map] at ht
    obtain ⟨j, -, rfl⟩ := ht
    rfl
  · rw [List.filter_append]
    have h1 : ∀ l : List Nat,
        (l.map (fun j => (Event.spawn j
            ((ThreadPool.configured s maxSize cb).newWorker numCreated j).name_ : Event τ))).filter
          (fun e => match e with
            | .spawn _ _ => true
            | _ => false)
        = l.map (fun i => Event.spawn i (s ++ toString (i + 1))) := by
      intro l
      induction l with
      | nil => rfl
      | cons a l ih =>
        simp only [List.map_cons, List.filter_cons, ↓reduceIte, ih]
        congr 2
        exact worker_name_kept s (a + 1) _
    rw [h1, List.range_eq_range']
    cases hz : decide (n = 0) <;> cases cb <;> simp [ThreadPool.configured,
      ThreadPool.setThreadInitCallback]

/-- C12 (init callback). `start(0)` on a pool whose init callback `cb` was set
returns with the single event "the caller invokes `cb`"; `start(0)` with no
callback set has no event at all; `start(n)` with `n > 0` has no invocation
among its events (they are the spawns). A worker's first step in
`runInThread` calls the callback, when one is set, and leaves the pool
untouched; whatever the other threads do between the worker's steps, that
call is the worker's first event, so it precedes every `take`, and no later
step of the worker calls the callback again. -/
theorem C12_init_callback (τ : Type) (nameArg : String) (maxSize : Int) (cb : τ)
    (n numCreated : Nat) (p : ThreadPool τ) (ps : List (ThreadPool τ)) :
    (∃ p1, (ThreadPool.configured nameArg maxSize (some cb)).start 0 numCreated
        = .returned p1 () [Event.invoke cb]) ∧
    (∃ p1, (ThreadPool.configured nameArg maxSize (none : Task τ)).start 0 numCreated
        = .returned p1 () []) ∧
    (∃ p1 evs, (ThreadPool.configured nameArg maxSize (some cb)).start ((n + 1 : Nat) : Int)
          numCreated = .returned p1 () evs ∧
        evs.all (fun e => match e with
          | .invoke _ => false
          | _ => true) = true) ∧
    p.runInThread .init
      = (.loopTest, p,
          match p.threadInitCallback_ with
          | some c => [WorkerEvent.initCallback c]
          | none => []) ∧
    (ThreadPool.workerTrace (p :: ps) .init).2
      = (match p.threadInitCallback_ with
          | some c => [WorkerEvent.initCallback c]
          | none => []) ++ (ThreadPool.workerTrace ps .loopTest).2 ∧
    initCallbackCount (ThreadPool.workerTrace ps .loopTest).2 = 0 ∧
    initCallbackCount (ThreadPool.workerTrace (p :: ps) .init).2
      = (if p.threadInitCallback_.isSome then 1 else 0) := by
  have h0 := fun c : Task τ =>
    pool_start_eq (ThreadPool.configured nameArg maxSize c) 0 numCreated rfl
  simp only [Nat.cast_zero] at h0
  have hloop := workerTrace_after_init ps (WorkerPc.loopTest : WorkerPc τ) (by simp)
  refine ⟨⟨_, h0 (some cb)⟩, ⟨_, h0 none⟩, ?_, rfl, rfl, hloop, ?_⟩
  · rw [pool_start_eq _ (n + 1) numCreated rfl]
    refine ⟨_, _, rfl, ?_⟩
    rw [List.all_eq_true]
    intro e he
    simp only [List.mem_append, List.mem_map] at he
    rcases he with ⟨j, -, rfl⟩ | he
    · rfl
    · simp at he
  · simp only [ThreadPool.workerTrace, ThreadPool.runInThread]
    rw [initCallbackCount_append, hloop]
    cases p.threadInitCallback_ <;> rfl

section HandOverLemmas

variable {τ : Type}

theorem pool_step_hand_over (p : ThreadPool τ) (op : ThreadPool.Op τ) (h : p.threads_ ≠ []) :
    ThreadPool.handedOut p [op] ++ (p.step op).queue_
      = p.queue_ ++ ThreadPool.accepted p [op] := by
  have hth : p.threads_.isEmpty = false := by
    cases hq : p.threads_ with
    | nil => exact absurd hq h
    | cons t ts => rfl
  cases op with
  | run task =>
    simp only [ThreadPool.handedOut, ThreadPool.accepted, ThreadPool.step, ThreadPool.run, hth]
    by_cases hf : p.isFull = true <;> simp [hf, Outcome.state]
  | take =>
    simp only [ThreadPool.handedOut, ThreadPool.accepted, ThreadPool.step, ThreadPool.take]
    cases hq : p.queue_ with
    | nil => cases hr : p.running_ <;> simp [Outcome.state, hq]
    | cons t rest => simp [Outcome.state]

theorem pool_hand_over (p : ThreadPool τ) (ops : List (ThreadPool.Op τ)) (h : p.threads_ ≠ []) :
    ThreadPool.handedOut p ops ++ (p.steps ops).queue_
      = p.queue_ ++ ThreadPool.accepted p ops := by
  induction ops generalizing p with
  | nil => simp [ThreadPool.handedOut, ThreadPool.accepted, ThreadPool.steps]
  | cons op ops ih =>
    have h1 := pool_step_hand_over p op h
    have hth : (p.step op).threads_ ≠ [] := by rw [(pool_step_frame p op).1]; exact h
    have h2 := ih (p.step op) hth
    simp only [ThreadPool.handedOut, ThreadPool.accepted, List.append_nil] at h1
    have hs : p.steps (op :: ops) = (p.step op).steps ops := rfl
    rw [hs]
    simp only [ThreadPool.handedOut, ThreadPool.accepted, List.append_assoc, h2]
    rw [← List.append_assoc, h1, List.append_assoc]

end HandOverLemmas

/-- C13 (each task is handed out at most once, in order). On a pool with
workers, for every interleaving of `run` and `take` steps: the tasks handed
out by the returning `take` calls, followed by the tasks still queued, are the
tasks queued at the beginning followed by the tasks accepted by `run`, in the
same order; so from an empty queue they are exactly the accepted tasks. A
`take` that returns on a non-empty queue returns the head and leaves the tail. -/
theorem C13_tasks_handed_out_once (τ : Type) (p : ThreadPool τ)
    (ops : List (ThreadPool.Op τ)) (h : p.threads_ ≠ []) :
    ThreadPool.handedOut p ops ++ (p.steps ops).queue_
      = p.queue_ ++ ThreadPool.accepted p ops ∧
    (p.queue_ = [] →
      ThreadPool.handedOut p ops ++ (p.steps ops).queue_ = ThreadPool.accepted p ops) ∧
    (∀ p1 task evs, p.take = .returned p1 task evs → p.queue_ ≠ [] →
      p.queue_ = task :: p1.queue_) := by
  have hmain := pool_hand_over p ops h
  refine ⟨hmain, ?_, ?_⟩
  · intro hq
    rw [hmain, hq, List.nil_append]
  · intro p1 task evs ht hne
    simp only [ThreadPool.take] at ht
    cases hq : p.queue_ with
    | nil => exact absurd hq hne
    | cons t rest =>
      simp only [hq, List.isEmpty_cons, Bool.false_and, Bool.false_eq_true, ↓reduceIte] at ht
      injection ht with h1 h2 h3
      subst h1 h2
      rfl

/-- Witness for C13: one worker, two `run` calls and three `take` calls
interleaved from an empty queue. -/
theorem C13_tasks_handed_out_once_witness :
    ThreadPool.threads_
        ({ name_ := "pool", threadInitCallback_ := none,
           threads_ := [⟨true, false, "pool1"⟩], queue_ := [],
           maxQueueSize_ := 0, running_ := true } : ThreadPool Nat) ≠ []
    ∧ ThreadPool.handedOut
        ({ name_ := "pool", threadInitCallback_ := none,
           threads_ := [⟨true, false, "pool1"⟩], queue_ := [],
           maxQueueSize_ := 0, running_ := true } : ThreadPool Nat)
        [.take, .run (some 1), .run (some 2), .take, .run (some 3), .take]
      ++ (ThreadPool.steps
        ({ name_ := "pool", threadInitCallback_ := none,
           threads_ := [⟨true, false, "pool1"⟩], queue_ := [],
           maxQueueSize_ := 0, running_ := true } : ThreadPool Nat)
        [.take, .run (some 1), .run (some 2), .take, .run (some 3), .take]).queue_
      = ThreadPool.accepted
        ({ name_ := "pool", threadInitCallback_ := none,
           threads_ := [⟨true, false, "pool1"⟩], queue_ := [],
           maxQueueSize_ := 0, running_ := true } : ThreadPool Nat)
        [.take, .run (some 1), .run (some 2), .take, .run (some 3), .take]
    ∧ ThreadPool.handedOut
        ({ name_ := "pool", threadInitCallback_ := none,
           threads_ := [⟨true, false, "pool1"⟩], queue_ := [],
           maxQueueSize_ := 0, running_ := true } : ThreadPool Nat)
        [.take, .run (some 1), .run (some 2), .take, .run (some 3), .take]
      = [some 1, some 2]
    ∧ (ThreadPool.take
        ({ name_ := "pool", threadInitCallback_ := none,
           threads_ := [⟨true, false, "pool1"⟩], queue_ := [some 5, some 6],
           maxQueueSize_ := 0, running_ := true } : ThreadPool Nat)
        = .returned
          ({ name_ := "pool", threadInitCallback_ := none,
             threads_ := [⟨true, false, "pool1"⟩], queue_ := [some 6],
             maxQueueSize_ := 0, running_ := true } : ThreadPool Nat) (some 5) []
      ∧ [some 5, some 6] = some 5 :: [some (6 : Nat)]) :=
  ⟨by decide,
    (C13_tasks_handed_out_once Nat _
      [.take, .run (some 1), .run (some 2), .take, .run (some 3), .take] (by decide)).2.1 rfl,
    by rfl,
    by rfl,
    (C13_tasks_handed_out_once Nat
      ({ name_ := "pool", threadInitCallback_ := none,
         threads_ := [⟨true, false, "pool1"⟩], queue_ := [some 5, some 6],
         maxQueueSize_ := 0, running_ := true } : ThreadPool Nat) [] (by decide)).2.2
      _ (some 5) [] (by rfl) (by decide)⟩

/-- C14 (pool take). In every pool state `take` waits exactly when the queue
is empty and `running_` is true. With an empty queue and `running_` false,
`take` returns the empty function object at once, with no event, and leaves
the pool as it is; the worker that called it then executes nothing and, with
`running_` still false at its loop test, leaves its loop. With a non-empty
queue `take` returns the head task and leaves the tail, whatever `running_` is. -/
theorem C14_take_waits_iff_empty_and_running (τ : Type) (p : ThreadPool τ) :
    (p.take.isWaiting = true ↔ (p.queue_ = [] ∧ p.running_ = true)) ∧
    (p.queue_ = [] → p.running_ = false →
      p.take = .returned p none [] ∧
      p.runInThread .inTake = (.gotTask none, p, [.took none]) ∧
      ∀ p2 p3 : ThreadPool τ, p3.running_ = false →
        ThreadPool.workerTrace [p, p2, p3] .inTake = (.exited, [.took none])) ∧
    (∀ task rest, p.queue_ = task :: rest →
      p.take.isWaiting = false ∧ p.take.value? = some task ∧
      p.take.state = { p with queue_ := rest }) := by
  refine ⟨?_, ?_, ?_⟩
  · simp only [ThreadPool.take]
    cases hq : p.queue_ with
    | nil => cases hr : p.running_ <;> simp [Outcome.isWaiting]
    | cons t rest => simp [Outcome.isWaiting]
  · intro hq hr
    have ht : p.take = .returned p none [] := by
      simp [ThreadPool.take, hq, hr]
    refine ⟨ht, ?_, ?_⟩
    · simp [ThreadPool.runInThread, ht]
    · intro p2 p3 h3
      simp [ThreadPool.workerTrace, ThreadPool.runInThread, ht, h3]
  · intro task rest hq
    simp [ThreadPool.take, hq, Outcome.isWaiting, Outcome.value?, Outcome.state]

/-- Witness for C14: a stopped pool with an empty queue, and a stopped pool
with two queued tasks. -/
theorem C14_take_waits_iff_empty_and_running_witness :
    (ThreadPool.workerTrace
        [({ name_ := "pool", threadInitCallback_ := none,
            threads_ := [⟨true, false, "pool1"⟩], queue_ := [],
            maxQueueSize_ := 0, running_ := false } : ThreadPool Nat),
         ({ name_ := "pool", threadInitCallback_ := none,
            threads_ := [⟨true, false, "pool1"⟩], queue_ := [some 4],
            maxQueueSize_ := 0, running_ := false } : ThreadPool Nat),
         ({ name_ := "pool", threadInitCallback_ := none,
            threads_ := [⟨true, false, "pool1"⟩], queue_ := [some 4],
            maxQueueSize_ := 0, running_ := false } : ThreadPool Nat)] .inTake
      = (.exited, [.took none]))
    ∧ (ThreadPool.take
        ({ name_ := "pool", threadInitCallback_ := none,
           threads_ := [⟨true, false, "pool1"⟩], queue_ := [some 5, some 6],
           maxQueueSize_ := 0, running_ := false } : ThreadPool Nat)).value? = some (some 5) :=
  ⟨((C14_take_waits_iff_empty_and_running Nat
      ({ name_ := "pool", threadInitCallback_ := none,
         threads_ := [⟨true, false, "pool1"⟩], queue_ := [],
         maxQueueSize_ := 0, running_ := false } : ThreadPool Nat)).2.1 rfl rfl).2.2 _ _ rfl,
    ((C14_take_waits_iff_empty_and_running Nat
      ({ name_ := "pool", threadInitCallback_ := none,
         threads_ := [⟨true, false, "pool1"⟩], queue_ := [some 5, some 6],
         maxQueueSize_ := 0, running_ := false } : ThreadPool Nat)).2.2
        (some 5) [some 6] rfl).2.1⟩

section DrainLemmas

variable {τ : Type}

theorem sum_map_set (f : WorkerPc τ → Nat) (ws : List (WorkerPc τ)) (i : Nat)
    (pc pc1 : WorkerPc τ) (h : ws[i]? = some pc) :
    ((ws.set i pc1).map f).sum + f pc = (ws.map f).sum + f pc1 := by
  induction ws generalizing i with
  | nil => simp at h
  | cons w ws ih =>
    cases i with
    | zero =>
      simp only [List.getElem?_cons_zero, Option.some.injEq] at h
      subst h
      simp only [List.set_cons_zero, List.map_cons, List.sum_cons]
      omega
    | succ j =>
      simp only [List.getElem?_cons_succ] at h
      have := ih j h
      simp only [List.set_cons_succ, List.map_cons, List.sum_cons]
      omega

theorem sum_pending_le (f : WorkerPc τ → Nat) (hf : ∀ pc, f pc ≤ 1) (ws : List (WorkerPc τ)) :
    (ws.map f).sum ≤ ws.length := by
  induction ws with
  | nil => simp
  | cons w ws ih =>
    have := hf w
    simp only [List.map_cons, List.sum_cons, List.length_cons]
    omega

theorem pendingRuns_le_one (pc : WorkerPc τ) : pc.pendingRuns ≤ 1 := by
  cases pc with
  | gotTask task => cases task <;> simp [WorkerPc.pendingRuns]
  | _ => simp [WorkerPc.pendingRuns]

theorem pendingTakes_le_one (pc : WorkerPc τ) : pc.pendingTakes ≤ 1 := by
  cases pc <;> simp [WorkerPc.pendingTakes]

theorem startedTasks_append (a b : List (WorkerEvent τ)) :
    startedTasks (a ++ b) = startedTasks a + startedTasks b := by
  simp [startedTasks]

theorem startedTasks_signals (evs : List (Event τ))
    (h : ∀ e ∈ evs, ∃ sg, e = Event.signal sg) :
    startedTasks (evs.map WorkerEvent.pool) = 0 := by
  induction evs with
  | nil => rfl
  | cons e evs ih =>
    obtain ⟨sg, rfl⟩ := h _ (List.mem_cons_self _ _)
    have := ih (fun e he => h e (List.mem_cons_of_mem _ he))
    simp only [startedTasks] at this
    simp [startedTasks, List.filter_cons, WorkerEvent.startsTask, this]

theorem take_stopped (p : ThreadPool τ) (hr : p.running_ = false) :
    (p.queue_ = [] ∧ p.take = .returned p none []) ∨
    (∃ task rest, p.queue_ = task :: rest ∧
      p.take = .returned { p with queue_ := rest } task
        (if p.maxQueueSize_ > 0 then [.signal (.notify .notFull)] else [])) := by
  cases hq : p.queue_ with
  | nil => exact Or.inl ⟨rfl, by simp [ThreadPool.take, hq, hr]⟩
  | cons t rest => exact Or.inr ⟨t, rest, rfl, by simp [ThreadPool.take, hq]⟩

theorem runInThread_stopped (p : ThreadPool τ) (pc : WorkerPc τ) (hr : p.running_ = false) :
    (p.runInThread pc).2.1.running_ = false ∧
    (p.runInThread pc).2.1.threads_ = p.threads_ ∧
    startedTasks (p.runInThread pc).2.2 + (p.runInThread pc).1.pendingRuns ≤ pc.pendingRuns ∧
    p.queue_.length + (p.runInThread pc).1.pendingTakes
      ≤ (p.runInThread pc).2.1.queue_.length + pc.pendingTakes := by
  cases pc with
  | init =>
    refine ⟨hr, rfl, ?_, ?_⟩
    · cases hcb : p.threadInitCallback_ <;>
        simp [ThreadPool.runInThread, hcb, startedTasks, WorkerEvent.startsTask,
          WorkerPc.pendingRuns]
    · simp [ThreadPool.runInThread, WorkerPc.pendingTakes]
  | loopTest =>
    simp [ThreadPool.runInThread, hr, startedTasks, WorkerPc.pendingRuns,
      WorkerPc.pendingTakes]
  | inTake =>
    rcases take_stopped p hr with ⟨hq, ht⟩ | ⟨task, rest, hq, ht⟩
    · simp [ThreadPool.runInThread, ht, hr, startedTasks, WorkerEvent.startsTask,
        WorkerPc.pendingRuns, WorkerPc.pendingTakes]
    · have hrit : p.runInThread .inTake
          = (.gotTask task, { p with queue_ := rest },
              (if p.maxQueueSize_ > 0 then [Event.signal (.notify .notFull)] else []).map
                WorkerEvent.pool ++ [.took task]) := by
        simp only [ThreadPool.runInThread, ht]
      rw [hrit]
      refine ⟨hr, rfl, ?_, ?_⟩
      · show startedTasks (_ ++ [WorkerEvent.took task]) + (WorkerPc.gotTask task).pendingRuns
          ≤ (WorkerPc.inTake : WorkerPc τ).pendingRuns
        rw [startedTasks_append, startedTasks_signals]
        · have := pendingRuns_le_one (WorkerPc.gotTask task)
          have h1 : startedTasks [WorkerEvent.took task] = 0 := rfl
          have h2 : (WorkerPc.inTake : WorkerPc τ).pendingRuns = 1 := rfl
          omega
        · intro e he
          split at he
          · simp only [List.mem_singleton] at he
            exact ⟨_, he⟩
          · simp at he
      · show p.queue_.length + (WorkerPc.gotTask task).pendingTakes
          ≤ rest.length + (WorkerPc.inTake : WorkerPc τ).pendingTakes
        rw [hq]
        simp [WorkerPc.pendingTakes]
  | gotTask task =>
    cases task <;>
      simp [ThreadPool.runInThread, hr, startedTasks, WorkerEvent.startsTask,
        WorkerPc.pendingRuns, WorkerPc.pendingTakes]
  | exited =>
    simp [ThreadPool.runInThread, hr, startedTasks, WorkerPc.pendingRuns,
      WorkerPc.pendingTakes]

theorem act_stopped (s : PoolSystem τ) (a : Action τ) (hr : s.pool.running_ = false)
    (hth : s.pool.threads_ ≠ []) :
    (s.act a).1.pool.running_ = false ∧ (s.act a).1.pool.threads_ ≠ [] ∧
    (s.act a).1.workers.length = s.workers.length ∧
    startedTasks (s.act a).2 + ((s.act a).1.workers.map WorkerPc.pendingRuns).sum
      ≤ (s.workers.map WorkerPc.pendingRuns).sum ∧
    s.pool.queue_.length + ((s.act a).1.workers.map WorkerPc.pendingTakes).sum
      ≤ (s.act a).1.pool.queue_.length + (s.workers.map WorkerPc.pendingTakes).sum := by
  cases a with
  | worker i =>
    cases hws : s.workers[i]? with
    | none =>
      have hact : s.act (.worker i) = (s, []) := by simp [PoolSystem.act, hws]
      rw [hact]
      exact ⟨hr, hth, rfl, by simp [startedTasks], le_refl _⟩
    | some pc =>
      have hact : s.act (.worker i)
          = ({ pool := (s.pool.runInThread pc).2.1,
               workers := s.workers.set i (s.pool.runInThread pc).1 },
             (s.pool.runInThread pc).2.2) := by
        simp [PoolSystem.act, hws]
      rw [hact]
      obtain ⟨h1, h2, h3, h4⟩ := runInThread_stopped s.pool pc hr
      have hs1 := sum_map_set WorkerPc.pendingRuns s.workers i pc (s.pool.runInThread pc).1 hws
      have hs2 := sum_map_set WorkerPc.pendingTakes s.workers i pc (s.pool.runInThread pc).1 hws
      refine ⟨h1, by rw [h2]; exact hth, by simp, ?_, ?_⟩
      · show startedTasks (s.pool.runInThread pc).2.2
            + ((s.workers.set i (s.pool.runInThread pc).1).map WorkerPc.pendingRuns).sum
          ≤ (s.workers.map WorkerPc.pendingRuns).sum
        omega
      · show s.pool.queue_.length
            + ((s.workers.set i (s.pool.runInThread pc).1).map WorkerPc.pendingTakes).sum
          ≤ (s.pool.runInThread pc).2.1.queue_.length
            + (s.workers.map WorkerPc.pendingTakes).sum
        omega
  | run task =>
    have hne : s.pool.threads_.isEmpty = false := by
      cases hq : s.pool.threads_ with
      | nil => exact absurd hq hth
      | cons t ts => rfl
    by_cases hf : s.pool.isFull = true
    · have hrun : s.pool.run task = .waiting s.pool := by simp [ThreadPool.run, hne, hf]
      simp only [PoolSystem.act, hrun, Outcome.state, Outcome.events, List.map_nil]
      exact ⟨hr, hth, trivial, by simp [startedTasks], le_refl _⟩
    · have hrun : s.pool.run task
          = .returned { s.pool with queue_ := s.pool.queue_ ++ [task] } ()
              [.signal (.notify .notEmpty)] := by
        simp [ThreadPool.run, hne, hf]
      simp only [PoolSystem.act, hrun, Outcome.state, Outcome.events]
      refine ⟨hr, hth, trivial, ?_, ?_⟩
      · simp [startedTasks, WorkerEvent.startsTask]
      · simp
  | stopLocked =>
    simp only [PoolSystem.act, ThreadPool.stopLocked]
    refine ⟨trivial, hth, trivial, ?_, le_refl _⟩
    simp [startedTasks, WorkerEvent.startsTask]

theorem exec_stopped (s : PoolSystem τ) (acts : List (Action τ))
    (hr : s.pool.running_ = false) (hth : s.pool.threads_ ≠ []) :
    (s.exec acts).1.pool.running_ = false ∧
    (s.exec acts).1.workers.length = s.workers.length ∧
    startedTasks (s.exec acts).2 + ((s.exec acts).1.workers.map WorkerPc.pendingRuns).sum
      ≤ (s.workers.map WorkerPc.pendingRuns).sum ∧
    s.pool.queue_.length + ((s.exec acts).1.workers.map WorkerPc.pendingTakes).sum
      ≤ (s.exec acts).1.pool.queue_.length + (s.workers.map WorkerPc.pendingTakes).sum := by
  induction acts generalizing s with
  | nil => exact ⟨hr, rfl, by simp [PoolSystem.exec, startedTasks], le_refl _⟩
  | cons a acts ih =>
    obtain ⟨a1, a2, a3, a4, a5⟩ := act_stopped s a hr hth
    obtain ⟨e1, e2, e3, e4⟩ := ih (s.act a).1 a1 a2
    simp only [PoolSystem.exec]
    refine ⟨e1, e2.trans a3, ?_, ?_⟩
    · rw [startedTasks_append]; omega
    · omega

theorem workerTrace_exited (ps : List (ThreadPool τ)) :
    ThreadPool.workerTrace ps (WorkerPc.exited : WorkerPc τ) = (.exited, []) := by
  induction ps with
  | nil => rfl
  | cons p ps ih => simp [ThreadPool.workerTrace, ThreadPool.runInThread, ih]

theorem workerTrace_stopped (ps : List (ThreadPool τ)) (pc : WorkerPc τ)
    (h : ∀ q ∈ ps, q.running_ = false) :
    startedTasks (ThreadPool.workerTrace ps pc).2
      + (ThreadPool.workerTrace ps pc).1.pendingRuns ≤ pc.pendingRuns := by
  induction ps generalizing pc with
  | nil => simp [ThreadPool.workerTrace, startedTasks]
  | cons p ps ih =>
    obtain ⟨-, -, h3, -⟩ := runInThread_stopped p pc (h p (List.mem_cons_self _ _))
    have := ih (p.runInThread pc).1 (fun q hq => h q (List.mem_cons_of_mem _ hq))
    simp only [ThreadPool.workerTrace]
    rw [startedTasks_append]
    omega

theorem workerTrace_three_exits (p1 p2 p3 : ThreadPool τ) (ps : List (ThreadPool τ))
    (pc : WorkerPc τ) (h1 : p1.running_ = false) (h2 : p2.running_ = false)
    (h3 : p3.running_ = false) :
    (ThreadPool.workerTrace (p1 :: p2 :: p3 :: ps) pc).1 = .exited := by
  cases pc with
  | init => simp [ThreadPool.workerTrace, ThreadPool.runInThread, h2, workerTrace_exited]
  | loopTest => simp [ThreadPool.workerTrace, ThreadPool.runInThread, h1, workerTrace_exited]
  | inTake =>
    rcases take_stopped p1 h1 with ⟨-, ht⟩ | ⟨task, rest, -, ht⟩ <;>
      simp [ThreadPool.workerTrace, ThreadPool.runInThread, ht, h3, workerTrace_exited]
  | gotTask task =>
    simp [ThreadPool.workerTrace, ThreadPool.runInThread, h2, workerTrace_exited]
  | exited => simp [workerTrace_exited]

end DrainLemmas

/-- C15 (drain bound after stop). Take a pool with `n ≥ 1` workers at any
positions of `runInThread` and let the locked block of `stop()` clear
`running_`. Then for every schedule of worker steps and `run` calls that
follows: `running_` stays false, at most `n` tasks begin execution, and at
most `n` tasks leave the queue, so every other queued task stays queued. Each
worker, whatever the other threads do between its steps, begins at most one
task and has left its loop after three steps. And `take` on a pool with
`running_` false and a non-empty queue still returns the head task. -/
theorem C15_drain_bound_after_stop (τ : Type) (s0 : PoolSystem τ) (acts : List (Action τ))
    (hth : s0.pool.threads_ ≠ []) (hw : s0.workers.length = s0.pool.threads_.length) :
    (s0.act .stopLocked).1.pool.running_ = false ∧
    (s0.act .stopLocked).1.pool.queue_ = s0.pool.queue_ ∧
    (s0.act .stopLocked).1.workers = s0.workers ∧
    ((s0.act .stopLocked).1.exec acts).1.pool.running_ = false ∧
    startedTasks ((s0.act .stopLocked).1.exec acts).2 ≤ s0.pool.threads_.length ∧
    s0.pool.queue_.length
      ≤ ((s0.act .stopLocked).1.exec acts).1.pool.queue_.length + s0.pool.threads_.length ∧
    (∀ (pc : WorkerPc τ) (ps : List (ThreadPool τ)), (∀ q ∈ ps, q.running_ = false) →
      startedTasks (ThreadPool.workerTrace ps pc).2 ≤ 1) ∧
    (∀ (pc : WorkerPc τ) (p1 p2 p3 : ThreadPool τ) (ps : List (ThreadPool τ)),
      p1.running_ = false → p2.running_ = false → p3.running_ = false →
      (ThreadPool.workerTrace (p1 :: p2 :: p3 :: ps) pc).1 = .exited) ∧
    (∀ (p : ThreadPool τ) task rest, p.running_ = false → p.queue_ = task :: rest →
      p.take.value? = some task ∧ p.take.state.queue_ = rest) := by
  obtain ⟨s, hs⟩ : ∃ s, s = (s0.act .stopLocked).1 := ⟨_, rfl⟩
  have h1 : s.pool.running_ = false := by rw [hs]; rfl
  have h2 : s.pool.queue_ = s0.pool.queue_ := by rw [hs]; rfl
  have h3 : s.workers = s0.workers := by rw [hs]; rfl
  have h4 : s.pool.threads_ = s0.pool.threads_ := by rw [hs]; rfl
  rw [← hs]
  obtain ⟨e1, -, e3, e4⟩ := exec_stopped s acts h1 (by rw [h4]; exact hth)
  have b1 := sum_pending_le WorkerPc.pendingRuns pendingRuns_le_one s0.workers
  have b2 := sum_pending_le WorkerPc.pendingTakes pendingTakes_le_one s0.workers
  rw [h3] at e3 e4
  rw [h2] at e4
  refine ⟨h1, h2, h3, e1, ?_, ?_, ?_, ?_, ?_⟩
  · omega
  · omega
  · intro pc ps h
    have := workerTrace_stopped ps pc h
    have := pendingRuns_le_one pc
    omega
  · intro pc p1 p2 p3 ps h1 h2 h3
    exact workerTrace_three_exits p1 p2 p3 ps pc h1 h2 h3
  · intro p task rest _ hq
    simp [ThreadPool.take, hq, Outcome.value?, Outcome.state]

/-- Witness for C15: two workers, one in `take` and one holding a task it has
taken, three tasks queued; after `stop()` has cleared `running_` both workers
run to their exit, two tasks begin execution and the other two stay queued. -/
theorem C15_drain_bound_after_stop_witness :
    (PoolSystem.pool
        ({ pool := { name_ := "pool", threadInitCallback_ := none,
                     threads_ := [⟨true, false, "pool1"⟩, ⟨true, false, "pool2"⟩],
                     queue_ := [some 2, some 3, some 4],
                     maxQueueSize_ := 0, running_ := true },
           workers := [.inTake, .gotTask (some 1)] } : PoolSystem Nat)).threads_ ≠ []
    ∧ startedTasks
        (PoolSystem.exec
          (PoolSystem.act
            ({ pool := { name_ := "pool", threadInitCallback_ := none,
                         threads_ := [⟨true, false, "pool1"⟩, ⟨true, false, "pool2"⟩],
                         queue_ := [some 2, some 3, some 4],
                         maxQueueSize_ := 0, running_ := true },
               workers := [.inTake, .gotTask (some 1)] } : PoolSystem Nat) .stopLocked).1
          [.worker 0, .worker 1, .worker 0, .worker 1, .worker 0, .worker 1]).2 ≤ 2
    ∧ PoolSystem.exec
          (PoolSystem.act
            ({ pool := { name_ := "pool", threadInitCallback_ := none,
                         threads_ := [⟨true, false, "pool1"⟩, ⟨true, false, "pool2"⟩],
                         queue_ := [some 2, some 3, some 4],
                         maxQueueSize_ := 0, running_ := true },
               workers := [.inTake, .gotTask (some 1)] } : PoolSystem Nat) .stopLocked).1
          [.worker 0, .worker 1, .worker 0, .worker 1, .worker 0, .worker 1]
        = (({ pool := { name_ := "pool", threadInitCallback_ := none,
                        threads_ := [⟨true, false, "pool1"⟩, ⟨true, false, "pool2"⟩],
                        queue_ := [some 3, some 4],
                        maxQueueSize_ := 0, running_ := false },
              workers := [.exited, .exited] } : PoolSystem Nat),
           [.took (some 2), .execute 1, .execute 2])
    ∧ (ThreadPool.take
        ({ name_ := "pool", threadInitCallback_ := none,
           threads_ := [⟨true, false, "pool1"⟩], queue_ := [some 5, some 6],
           maxQueueSize_ := 0, running_ := false } : ThreadPool Nat)).value? = some (some 5)
    ∧ startedTasks (ThreadPool.workerTrace
        [({ name_ := "pool", threadInitCallback_ := none,
            threads_ := [⟨true, false, "pool1"⟩], queue_ := [some 5, some 6],
            maxQueueSize_ := 0, running_ := false } : ThreadPool Nat),
         ({ name_ := "pool", threadInitCallback_ := none,
            threads_ := [⟨true, false, "pool1"⟩], queue_ := [some 6],
            maxQueueSize_ := 0, running_ := false } : ThreadPool Nat)] .inTake).2 ≤ 1
    ∧ (ThreadPool.workerTrace
        [({ name_ := "pool", threadInitCallback_ := none,
            threads_ := [⟨true, false, "pool1"⟩], queue_ := [some 5, some 6],
            maxQueueSize_ := 0, running_ := false } : ThreadPool Nat),
         ({ name_ := "pool", threadInitCallback_ := none,
            threads_ := [⟨true, false, "pool1"⟩], queue_ := [some 6],
            maxQueueSize_ := 0, running_ := false } : ThreadPool Nat),
         ({ name_ := "pool", threadInitCallback_ := none,
            threads_ := [⟨true, false, "pool1"⟩], queue_ := [some 6],
            maxQueueSize_ := 0, running_ := false } : ThreadPool Nat)] .inTake).1 = .exited :=
  ⟨by decide,
    (C15_drain_bound_after_stop Nat
      ({ pool := { name_ := "pool", threadInitCallback_ := none,
                   threads_ := [⟨true, false, "pool1"⟩, ⟨true, false, "pool2"⟩],
                   queue_ := [some 2, some 3, some 4],
                   maxQueueSize_ := 0, running_ := true },
         workers := [.inTake, .gotTask (some 1)] } : PoolSystem Nat)
      [.worker 0, .worker 1, .worker 0, .worker 1, .worker 0, .worker 1]
      (by decide) rfl).2.2.2.2.1,
    by rfl,
    ((C15_drain_bound_after_stop Nat
      ({ pool := { name_ := "pool", threadInitCallback_ := none,
                   threads_ := [⟨true, false, "pool1"⟩, ⟨true, false, "pool2"⟩],
                   queue_ := [some 2, some 3, some 4],
                   maxQueueSize_ := 0, running_ := true },
         workers := [.inTake, .gotTask (some 1)] } : PoolSystem Nat) []
      (by decide) rfl).2.2.2.2.2.2.2.2
        ({ name_ := "pool", threadInitCallback_ := none,
           threads_ := [⟨true, false, "pool1"⟩], queue_ := [some 5, some 6],
           maxQueueSize_ := 0, running_ := false } : ThreadPool Nat)
        (some 5) [some 6] rfl rfl).1,
    (C15_drain_bound_after_stop Nat
      ({ pool := { name_ := "pool", threadInitCallback_ := none,
                   threads_ := [⟨true, false, "pool1"⟩], queue_ := [],
                   maxQueueSize_ := 0, running_ := true },
         workers := [.inTake] } : PoolSystem Nat) []
      (by decide) rfl).2.2.2.2.2.2.1 .inTake _
        (by
          intro q hq
          simp only [List.mem_cons, List.mem_singleton, List.not_mem_nil, or_false] at hq
          rcases hq with rfl | rfl <;> rfl),
    (C15_drain_bound_after_stop Nat
      ({ pool := { name_ := "pool", threadInitCallback_ := none,
                   threads_ := [⟨true, false, "pool1"⟩], queue_ := [],
                   maxQueueSize_ := 0, running_ := true },
         workers := [.inTake] } : PoolSystem Nat) []
      (by decide) rfl).2.2.2.2.2.2.2.1 .inTake _ _ _ [] rfl rfl rfl⟩

end muduo
